import Mathlib

/-!
# Droidspaces-OSS — verification of spec claims against the C source

Shallow embedding of the parts of the Droidspaces container runtime that the
frozen claims are about, with theorems settling each claim.

Embedded modules (each definition mirrors the named C function):
* `src/android_seccomp.c` — `android_seccomp_setup` and its seccomp-BPF filter
* `src/boot.c` — the step order of `internal_boot`
* `src/mount.c` — `setup_custom_binds`, `unmount_rootfs_img`
* `src/pid.c` — `generate_container_name`, `find_available_name`
* `src/main.c` — the `start` collision check
* `src/container.c` — `stop_rootfs`, `cleanup_container_resources`
* `src/network.c` / `src/android.c` — `ds_get_dns_servers`,
  `android_fill_dns_from_props`
* `src/config.c` — `ds_config_load`
-/

namespace Droidspaces

/-! ## Seccomp-BPF (src/android_seccomp.c)

The C filter is an array of `sock_filter` entries.  We model exactly the
instruction forms the filter uses: loads of the `seccomp_data` fields,
conditional forward jumps, and returns.  The BPF accumulator is a `Nat`
(the C values are 32-bit; the filter only compares them for equality or
tests bits, so no wraparound arises). -/

/-- The `seccomp_data` fields read by the filter: `arch`, `nr`, `args[0]`
(low 32 bits, which hold all CLONE flag bits the mask tests). -/
structure SeccompData where
  arch : Nat
  nr : Nat
  arg0 : Nat
  deriving Repr, DecidableEq

/-- The BPF instruction forms used by `android_seccomp_setup`'s filter. -/
inductive BpfInstr where
  /-- `BPF_LD|BPF_W|BPF_ABS offsetof(seccomp_data, arch)` -/
  | ldArch : BpfInstr
  /-- `BPF_LD|BPF_W|BPF_ABS offsetof(seccomp_data, nr)` -/
  | ldNr : BpfInstr
  /-- `BPF_LD|BPF_W|BPF_ABS offsetof(seccomp_data, args[0])` -/
  | ldArg0 : BpfInstr
  /-- `BPF_JMP|BPF_JEQ|BPF_K k, jt, jf` -/
  | jeq (k jt jf : Nat) : BpfInstr
  /-- `BPF_JMP|BPF_JSET|BPF_K k, jt, jf` -/
  | jset (k jt jf : Nat) : BpfInstr
  /-- `BPF_RET|BPF_K SECCOMP_RET_ALLOW` -/
  | retAllow : BpfInstr
  /-- `BPF_RET|BPF_K SECCOMP_RET_ERRNO | (e & SECCOMP_RET_DATA)` -/
  | retErrno (e : Nat) : BpfInstr
  deriving Repr, DecidableEq

/-- Result of running a seccomp filter on one syscall. -/
inductive SeccompRet where
  | allow : SeccompRet
  | errno (e : Nat) : SeccompRet
  deriving Repr, DecidableEq

/-- Fuel-indexed BPF interpreter: program, program counter, accumulator,
input data.  Jumps are `pc + 1 + offset` exactly as in classic BPF; running
off the program (which the kernel verifier rejects) gives `none`. -/
def bpfExec : Nat → List BpfInstr → Nat → Nat → SeccompData → Option SeccompRet
  | 0, _, _, _, _ => none
  | fuel + 1, prog, pc, acc, d =>
    match prog.get? pc with
    | none => none
    | some .ldArch => bpfExec fuel prog (pc + 1) d.arch d
    | some .ldNr => bpfExec fuel prog (pc + 1) d.nr d
    | some .ldArg0 => bpfExec fuel prog (pc + 1) d.arg0 d
    | some (.jeq k jt jf) =>
        bpfExec fuel prog (pc + 1 + (if acc = k then jt else jf)) acc d
    | some (.jset k jt jf) =>
        bpfExec fuel prog (pc + 1 + (if acc &&& k ≠ 0 then jt else jf)) acc d
    | some .retAllow => some .allow
    | some (.retErrno e) => some (.errno e)

/-- Run a BPF program from the start.  All jumps in classic BPF are forward,
so `length + 1` fuel always suffices. -/
def bpfRun (prog : List BpfInstr) (d : SeccompData) : Option SeccompRet :=
  bpfExec (prog.length + 1) prog 0 0 d

/-- `errno` values used by the filter (Linux, all modelled architectures). -/
def ENOSYS : Nat := 38

def EPERM : Nat := 1

/-- The architecture-dependent constants the filter is compiled with:
the `AUDIT_ARCH_*` value and the `__NR_*` syscall numbers. -/
structure SeccompABI where
  auditArch : Nat
  nrKeyctl : Nat
  nrAddKey : Nat
  nrRequestKey : Nat
  nrUnshare : Nat
  nrClone : Nat
  deriving Repr, DecidableEq

/-- The x86_64 instantiation of the conditional compilation in
`android_seccomp.c` (`AUDIT_ARCH_X86_64` and the x86_64 syscall table). -/
def abiX86_64 : SeccompABI :=
  { auditArch := 0xC000003E
    nrKeyctl := 250
    nrAddKey := 248
    nrRequestKey := 249
    nrUnshare := 272
    nrClone := 56 }

/-- `ns_mask` from `android_seccomp_setup`: CLONE_NEWNS | CLONE_NEWCGROUP |
CLONE_NEWUTS | CLONE_NEWIPC | CLONE_NEWUSER | CLONE_NEWPID | CLONE_NEWNET. -/
def nsMask : Nat := 0x7E020000

/-- The `filter[]` array built by `android_seccomp_setup` (src/android_seccomp.c
lines 61–103), entry for entry.  Note that the C function builds this same
array on every call on a legacy kernel: the construction does not read any
`is_systemd` input. -/
def dsSeccompFilter (abi : SeccompABI) : List BpfInstr :=
  [ .ldArch,
    .jeq abi.auditArch 1 0,
    .retAllow,
    .ldNr,
    .jeq abi.nrKeyctl 0 1,
    .retErrno ENOSYS,
    .jeq abi.nrAddKey 0 1,
    .retErrno ENOSYS,
    .jeq abi.nrRequestKey 0 1,
    .retErrno ENOSYS,
    .jeq abi.nrUnshare 1 0,
    .jeq abi.nrClone 0 3,
    .ldArg0,
    .jset nsMask 0 1,
    .retErrno EPERM,
    .retAllow ]

/-- Host-visible actions `android_seccomp_setup` performs, in order. -/
inductive SeccompAction where
  /-- `prctl(PR_SET_NO_NEW_PRIVS, 1, 0, 0, 0)` -/
  | setNoNewPrivs : SeccompAction
  /-- `prctl(PR_SET_SECCOMP, SECCOMP_MODE_FILTER, &prog)` -/
  | installFilter (prog : List BpfInstr) : SeccompAction
  deriving Repr, DecidableEq

/-- `android_seccomp_setup` (src/android_seccomp.c lines 38–121), given the
already-parsed kernel version.  The header `droidspace.h` declares the
function as `android_seccomp_setup(int is_systemd)` and `internal_boot`
passes `is_systemd`, but the definition in `android_seccomp.c` takes no
parameter and its body never branches on it — so the argument is carried
here and ignored, exactly as in the source.  Returns the action list and
the C return value. -/
def android_seccomp_setup (abi : SeccompABI) (is_systemd : Bool)
    (major minor : Nat) : List SeccompAction × Int :=
  let _ := is_systemd  -- not consulted by the C definition
  let _ := minor       -- only logged
  if 5 ≤ major then ([], 0)
  else ([.setNoNewPrivs, .installFilter (dsSeccompFilter abi)], 0)

/-! ## Boot sequencer (src/boot.c, `internal_boot`)

We model the order in which `internal_boot` performs its externally visible
steps on the success path (every step listed is attempted in this textual
order in the C function; early `return -1` paths only truncate the list, so
relative order of performed steps is as below in every run). -/

/-- The configuration fields that decide which optional boot steps run. -/
structure BootCfg where
  android : Bool
  volatile_mode : Bool
  hw_access : Bool
  android_storage : Bool
  tty_count : Nat
  deriving Repr, DecidableEq

/-- One externally visible step of `internal_boot`, in source order. -/
inductive BootStep where
  | unshareMountNs
  | makeRootPrivate
  | seccompSetup
  | volatileOverlay
  | bindRootfsSelf
  | chdirRootfs
  | readUuidSync
  | mkdirOldRoot
  | setupDev
  | mountProc
  | mountSys
  | mkdirCgroupDir
  | hwSysBinds
  | isolatedNetSysfs
  | remountSysRO
  | cgroupSetup
  | maskConsoleActive
  | mountRunTmpfs
  | bindConsole
  | bindTty (i : Nat)
  | writeUuidMarker
  | writeVersionMarker
  | androidStorage
  | customBinds
  | pivotRoot
  | setupDevpts
  | fixNetworkingRootfs
  | cleanupOldRoot
  | writeContainerIdent
  | envSetup
  | consoleStdio
  | execInit
  deriving Repr, DecidableEq, BEq

/-- The step order of `internal_boot` (src/boot.c lines 10–267), read off the
source top to bottom.  In particular `setup_cgroups()` is called at line 155,
after the read-only remount of `sys` (line 148) and before the `run` tmpfs
mount (line 167), the console/tty binds (lines 174–183) and the marker writes
(lines 185–189). -/
def internal_boot_steps (cfg : BootCfg) : List BootStep :=
  [.unshareMountNs, .makeRootPrivate] ++
  (if cfg.android then [.seccompSetup] else []) ++
  (if cfg.volatile_mode then [.volatileOverlay] else []) ++
  [.bindRootfsSelf, .chdirRootfs, .readUuidSync, .mkdirOldRoot, .setupDev,
   .mountProc, .mountSys, .mkdirCgroupDir] ++
  (if cfg.hw_access then [.hwSysBinds] else [.isolatedNetSysfs]) ++
  [.remountSysRO, .cgroupSetup, .maskConsoleActive, .mountRunTmpfs,
   .bindConsole] ++
  (List.range cfg.tty_count).map .bindTty ++
  [.writeUuidMarker, .writeVersionMarker] ++
  (if cfg.android_storage then [.androidStorage] else []) ++
  [.customBinds, .pivotRoot, .setupDevpts, .fixNetworkingRootfs,
   .cleanupOldRoot, .writeContainerIdent, .envSetup, .consoleStdio, .execInit]

/-! ## Custom bind mounts (src/mount.c, `setup_custom_binds`)

One entry's processing depends on four host conditions; the function emits
the corresponding sequence of filesystem actions. -/

/-- Host conditions consulted while processing one (src, dest) entry. -/
structure BindEnv where
  /-- `access(src, F_OK) == 0` -/
  srcExists : Bool
  /-- `lstat(tgt)` succeeds and the target is a symlink -/
  tgtIsSymlink : Bool
  /-- `bind_mount(src, tgt)` returns 0 -/
  mountOk : Bool
  /-- `is_subpath(rootfs, tgt)` returns 1 -/
  subpathOk : Bool
  deriving Repr, DecidableEq

/-- Filesystem-visible actions of `setup_custom_binds` for one entry. -/
inductive BindEvent where
  /-- entry skipped: source missing on host -/
  | skipMissingSrc
  /-- `mkdir_p` on the destination's parent directory -/
  | ensureParentDir
  /-- entry rejected: destination is a pre-existing symlink -/
  | rejectSymlink
  /-- successful `MS_BIND | MS_REC` mount of src on the destination -/
  | mountBind
  /-- `bind_mount` failed; entry skipped with a warning -/
  | mountBindFailed
  /-- entry rejected: `is_subpath` says the destination escapes the rootfs -/
  | rejectEscape
  /-- `umount2(tgt, MNT_DETACH)` -/
  | umountDetach
  deriving Repr, DecidableEq

/-- The per-entry body of `setup_custom_binds` (src/mount.c lines 519–561),
as the ordered list of actions it performs: source-existence check, parent
`mkdir_p`, symlink rejection, the bind mount itself, and only after a
successful mount the `is_subpath` verification with `umount2` rollback. -/
def process_custom_bind (env : BindEnv) : List BindEvent :=
  if ¬env.srcExists then [.skipMissingSrc]
  else
    .ensureParentDir ::
      (if env.tgtIsSymlink then [.rejectSymlink]
       else if ¬env.mountOk then [.mountBindFailed]
       else if ¬env.subpathOk then [.mountBind, .rejectEscape, .umountDetach]
       else [.mountBind])

/-! ## C string helpers shared by several embedded functions -/

/-- `strstr(hay, pat)` as the index of the first occurrence of `pat` in
`hay` (`none` = NULL). -/
def strstrIdx (pat : List Char) : List Char → Option Nat
  | [] => if pat.isPrefixOf ([] : List Char) then some 0 else none
  | c :: t =>
    if pat.isPrefixOf (c :: t) then some 0 else (strstrIdx pat t).map (· + 1)

/-- `strchr(s, ch)` as the index of the first occurrence of `ch` in `s`
(`none` = NULL). -/
def strchrIdx (ch : Char) : List Char → Option Nat
  | [] => none
  | c :: t => if c = ch then some 0 else (strchrIdx ch t).map (· + 1)

/-- `isspace` over the characters C's `""` locale treats as space. -/
def isspaceC (c : Char) : Bool :=
  c = ' ' ∨ c = '\t' ∨ c = '\n' ∨ c = '\x0b' ∨ c = '\x0c' ∨ c = '\r'

/-- `trim_whitespace` (src/config.c lines 15–27): strip leading and trailing
space characters. -/
def trim_whitespace (s : List Char) : List Char :=
  ((s.dropWhile isspaceC).reverse.dropWhile isspaceC).reverse

/-- `read_file` (src/utils.c lines 146–175) viewed as a transformation of the
file content: at most `size - 1` bytes are read, and trailing `'\n'`/`'\r'`
bytes are stripped. -/
def read_file_model (size : Nat) (content : List Char) : List Char :=
  ((content.take (size - 1)).reverse.dropWhile
    (fun c => c = '\n' ∨ c = '\r')).reverse

/-- A C string stops at the first NUL byte; parsing functions that receive a
buffer see only this part. -/
def cstr (s : List Char) : List Char :=
  s.takeWhile (fun c => c ≠ '\x00')

/-! ## Container naming (src/pid.c, `generate_container_name`) -/

/-- The value-copying loop of `generate_container_name`: skip one leading
quote, then copy until NUL (end), a quote, a newline, or `limit` characters. -/
def cReadVal (limit : Nat) (v : List Char) : List Char :=
  let v1 := if v.head? = some '"' then v.tail else v
  go limit v1
where
  go : Nat → List Char → List Char
    | 0, _ => []
    | _, [] => []
    | n + 1, c :: t => if c = '"' ∨ c = '\n' then [] else c :: go n t

/-- `generate_container_name` (src/pid.c lines 44–93), as a function of the
content of `<rootfs>/etc/os-release` (`none` = file unreadable).  The file is
read with `read_file(…, buf, 4096)`, then `ID` is located via
`strstr(buf, "\nID=")` with a start-of-buffer fallback, and `VERSION_ID` via
`strstr(buf, "VERSION_ID=")`; each value copies at most 63 characters and
stops at a quote or newline. -/
def generate_container_name (osRelease : Option (List Char)) : List Char :=
  match osRelease with
  | none => "linux-container".toList
  | some content =>
    let buf := cstr (read_file_model 4096 content)
    let idStart : Option Nat :=
      match strstrIdx "\nID=".toList buf with
      | some i => some (i + 4)
      | none => if "ID=".toList.isPrefixOf buf then some 3 else none
    let id : List Char :=
      match idStart with
      | some j => cReadVal 63 (buf.drop j)
      | none => "linux".toList
    let version : List Char :=
      match strstrIdx "VERSION_ID=".toList buf with
      | some i => cReadVal 63 (buf.drop (i + 11))
      | none => []
    if version ≠ [] then id ++ '-' :: version else id

/-! ## DNS resolution (src/network.c `ds_get_dns_servers`,
src/android.c `android_fill_dns_from_props`) -/

/-- `strtok_r(buf, ", ", …)` delimiters. -/
def isDnsDelim (c : Char) : Bool := c = ',' ∨ c = ' '

/-- `strtok_r` over a delimiter set: the maximal non-empty runs of
non-delimiter characters. -/
def strtokByAux (d : Char → Bool) : Nat → List Char → List (List Char)
  | 0, _ => []
  | fuel + 1, s =>
    match s.dropWhile d with
    | [] => []
    | c :: t =>
      ((c :: t).takeWhile (fun a => ¬ d a)) ::
        strtokByAux d fuel ((c :: t).dropWhile (fun a => ¬ d a))

/-- All tokens of a `strtok_r` scan. -/
def strtokBy (d : Char → Bool) (s : List Char) : List (List Char) :=
  strtokByAux d (s.length + 1) s

/-- `strtok_r(buf, ", ", …)` as used for the custom DNS list. -/
def strtok (s : List Char) : List (List Char) :=
  strtokBy isDnsDelim s

/-- `snprintf(line, 128, "nameserver %s\n", token)`: at most 127 characters
are produced. -/
def nsLine (t : List Char) : List Char :=
  ("nameserver ".toList ++ t ++ ['\n']).take 127

/-- The custom-DNS loop of `ds_get_dns_servers` (src/network.c lines 19–31):
append a `nameserver` line per token while `strlen(out) < size - 64`. -/
def appendCustomDns (size : Nat) : List (List Char) → List Char → Nat →
    List Char × Nat
  | [], out, count => (out, count)
  | t :: ts, out, count =>
    if out.length < size - 64 then
      appendCustomDns size ts (out ++ nsLine t) (count + 1)
    else (out, count)

/-- One `getprop` output line parsed by `android_fill_dns_from_props`
(src/android.c lines 165–188): the line must contain `"dns"`, a `[name]`
part, and a bracketed part after it; the value is what `safe_strncpy` copies
from `val_start + 1` after the NUL write at `val_end` (both located with
`strchr` from `name_end + 1`). -/
def parsePropLine (line : List Char) : Option (List Char) :=
  if (strstrIdx "dns".toList line).isNone then none
  else
    match strchrIdx '[' line with
    | none => none
    | some _ =>
      match strchrIdx ']' line with
      | none => none
      | some nameEnd =>
        let rest := line.drop (nameEnd + 1)
        match strchrIdx '[' rest with
        | none => none
        | some valStart =>
          match strchrIdx ']' rest with
          | none => none
          | some valEnd =>
            if valStart < valEnd then
              some ((rest.drop (valStart + 1)).take (valEnd - valStart - 1))
            else
              some (rest.drop (valStart + 1))

/-- The line loop of `android_fill_dns_from_props`: first parsed value into
`dns1`, first distinct later value into `dns2` (then break); values pass
through `safe_strncpy(…, 64)` so at most 63 characters are kept. -/
def fillDnsLoop : List (List Char) → List Char → List Char →
    List Char × List Char
  | [], d1, d2 => (d1, d2)
  | l :: ls, d1, d2 =>
    match parsePropLine l with
    | none => fillDnsLoop ls d1 d2
    | some v =>
      if d1 = [] then fillDnsLoop ls (v.take 63) d2
      else if d2 = [] ∧ v ≠ d1 then (d1, v.take 63)
      else fillDnsLoop ls d1 d2

/-- `android_fill_dns_from_props` (src/android.c lines 125–194) as a function
of the `getprop` output lines. -/
def android_fill_dns_from_props (getpropLines : List (List Char)) :
    List Char × List Char :=
  fillDnsLoop getpropLines [] []

/-- The two global fallbacks appended by `ds_get_dns_servers`. -/
def dnsDefaults : List Char :=
  "nameserver 1.1.1.1\nnameserver 8.8.8.8\n".toList

/-- `ds_get_dns_servers` (src/network.c lines 14–58): custom list first
(copied through a 256-byte buffer, so truncated to 255 characters before
tokenising), then Android properties, then the two stable fallbacks.
Returns the built `resolv.conf` body and the line count. -/
def ds_get_dns_servers (custom : List Char) (android : Bool)
    (getpropLines : List (List Char)) (size : Nat) : List Char × Nat :=
  let step0 : List Char × Nat :=
    if custom ≠ [] then appendCustomDns size (strtok (custom.take 255)) [] 0
    else ([], 0)
  let step1 : List Char × Nat :=
    if step0.2 = 0 ∧ android then
      let dns := android_fill_dns_from_props getpropLines
      let o1 := if dns.1 ≠ [] then
          step0.1 ++ "nameserver ".toList ++ dns.1 ++ ['\n'] else step0.1
      let c1 := step0.2 + (if dns.1 ≠ [] then 1 else 0)
      let o2 := if dns.2 ≠ [] then
          o1 ++ "nameserver ".toList ++ dns.2 ++ ['\n'] else o1
      let c2 := c1 + (if dns.2 ≠ [] then 1 else 0)
      (o2, c2)
    else step0
  if step1.2 = 0 then (step1.1 ++ dnsDefaults, 2) else step1

/-! ## Configuration file loading (src/config.c, `ds_config_load`) -/

/-- `atoi`: optional leading whitespace and sign, then decimal digits. -/
def cAtoi (s : List Char) : Int :=
  let s1 := s.dropWhile isspaceC
  match s1 with
  | '-' :: t => -(digitsVal t)
  | '+' :: t => digitsVal t
  | _ => digitsVal s1
where
  digitsVal (t : List Char) : Int :=
    (t.takeWhile Char.isDigit).foldl
      (fun acc c => acc * 10 + (c.toNat - 48 : Int)) 0

/-- The `struct ds_config` fields written by `ds_config_load`
(src/droidspace.h lines 164–201; the C flag fields are `int`, holding the
`atoi` of the value).  `is_img_mount` is the C `int` used as a truth value
(`1` ↦ `true`). -/
structure DsConfig where
  container_name : List Char
  hostname : List Char
  rootfs_path : List Char
  rootfs_img_path : List Char
  pidfile : List Char
  dns_servers : List Char
  is_img_mount : Bool
  enable_ipv6 : Int
  android_storage : Int
  hw_access : Int
  selinux_permissive : Int
  volatile_mode : Int
  foreground : Int
  binds : List (List Char × List Char)
  deriving Repr, DecidableEq

/-- `ds_config_add_bind` (src/config.c lines 57–81): skip empty components
and duplicates, cap at `DS_MAX_BINDS = 16`. -/
def ds_config_add_bind (binds : List (List Char × List Char))
    (src dest : List Char) : List (List Char × List Char) :=
  if src = [] ∨ dest = [] then binds
  else if (src.take 4095, dest.take 4095) ∈ binds then binds
  else if 16 ≤ binds.length then binds
  else binds ++ [(src.take 4095, dest.take 4095)]

/-- `parse_bind_mounts` (src/config.c lines 29–55): comma tokens, first `:`
splits src and dest, both must be absolute. -/
def parse_bind_mounts (value : List Char) : List (List Char × List Char) :=
  go (strtokBy (· = ',') value) []
where
  go : List (List Char) → List (List Char × List Char) →
      List (List Char × List Char)
    | [], acc => acc
    | t :: ts, acc =>
      if 16 ≤ acc.length then acc
      else
        match strchrIdx ':' t with
        | none => go ts acc
        | some i =>
          let src := trim_whitespace (t.take i)
          let dest := trim_whitespace (t.drop (i + 1))
          if src.head? = some '/' ∧ dest.head? = some '/' then
            go ts (ds_config_add_bind acc src dest)
          else go ts acc

/-- The per-line body of `ds_config_load` (src/config.c lines 104–154):
trim, skip comments and blanks, split at the first `=`, dispatch on the key.
The `rootfs_path` key routes on `strstr(val, ".img")`: any value containing
`".img"` is stored as the image path with `is_img_mount = 1`, all other
values as the directory path. -/
def ds_config_apply_line (cfg : DsConfig) (rawLine : List Char) : DsConfig :=
  let t := trim_whitespace (cstr (rawLine.take 2047))
  if t.head? = some '#' ∨ t = [] then cfg
  else
    match strchrIdx '=' t with
    | none => cfg
    | some i =>
      let key := trim_whitespace (t.take i)
      let val := trim_whitespace (t.drop (i + 1))
      if key = "name".toList then { cfg with container_name := val.take 255 }
      else if key = "hostname".toList then { cfg with hostname := val.take 255 }
      else if key = "rootfs_path".toList then
        if (strstrIdx ".img".toList val).isSome then
          { cfg with rootfs_img_path := val.take 4095, is_img_mount := true }
        else { cfg with rootfs_path := val.take 4095 }
      else if key = "enable_ipv6".toList then { cfg with enable_ipv6 := cAtoi val }
      else if key = "enable_android_storage".toList then
        { cfg with android_storage := cAtoi val }
      else if key = "enable_hw_access".toList then { cfg with hw_access := cAtoi val }
      else if key = "selinux_permissive".toList then
        { cfg with selinux_permissive := cAtoi val }
      else if key = "volatile_mode".toList then { cfg with volatile_mode := cAtoi val }
      else if key = "bind_mounts".toList then { cfg with binds := parse_bind_mounts val }
      else if key = "dns_servers".toList then { cfg with dns_servers := val.take 1023 }
      else if key = "foreground".toList then { cfg with foreground := cAtoi val }
      else if key = "pidfile".toList then { cfg with pidfile := val.take 4095 }
      else cfg

/-- `ds_config_load` over the file's lines (`none` = `ENOENT`: config is
optional and `cfg` is untouched). -/
def ds_config_load (file : Option (List (List Char))) (cfg : DsConfig) :
    DsConfig :=
  match file with
  | none => cfg
  | some ls => ls.foldl ds_config_apply_line cfg

/-! ## PID registry and the start collision check
(src/pid.c `find_available_name`, src/main.c lines 352–360)

The Pids directory is modelled by the three sidecar families it holds, plus
the host mount table; `read_and_validate_pid` needs the process state behind
a PID-file content, which enters as the oracle `validPid`. -/

/-- Workspace state: sidecar files keyed by container name, and whether a
host path is currently a mount point. -/
structure Workspace where
  /-- content of `Pids/<name>.pid`, `none` if absent -/
  pidfile : String → Option String
  /-- content of `Pids/<name>.mount`, `none` if absent -/
  mountfile : String → Option String
  /-- existence of `Pids/<name>.restart` -/
  restartMarker : String → Bool
  /-- is this host path an active mount point -/
  mounted : String → Bool

/-- The name tried at loop index `i` of `find_available_name`:
`base` first, then `base-1`, `base-2`, …. -/
def candidate_name (base : String) (i : Nat) : String :=
  if i = 0 then base else base ++ "-" ++ toString i

/-- `DS_MAX_CONTAINERS` (src/droidspace.h line 68). -/
def DS_MAX_CONTAINERS : Nat := 1024

/-- The loop of `find_available_name` (src/pid.c lines 95–115): an absent
PID file is taken immediately; a stale one (`read_and_validate_pid < 0`) is
unlinked and taken; a valid one advances to the next candidate. -/
def find_available_name_go (validPid : String → Bool) (base : String) :
    Nat → Nat → Workspace → Option String × Workspace
  | 0, _, ws => (none, ws)
  | fuel + 1, i, ws =>
    let n := candidate_name base i
    match ws.pidfile n with
    | none => (some n, ws)
    | some c =>
      if validPid c then find_available_name_go validPid base fuel (i + 1) ws
      else (some n,
        { ws with pidfile := fun m => if m = n then none else ws.pidfile m })

/-- `find_available_name` (src/pid.c lines 95–115): result name (`none` is
the C return `-1`) and the Pids directory afterwards. -/
def find_available_name (validPid : String → Bool) (ws : Workspace)
    (base : String) : Option String × Workspace :=
  find_available_name_go validPid base DS_MAX_CONTAINERS 0 ws

/-- The `start` collision check (src/main.c lines 352–360): the command
exits with status 1 exactly when `find_available_name` returns `-1`. -/
def start_name_collision_fails (validPid : String → Bool) (ws : Workspace)
    (base : String) : Bool :=
  (find_available_name validPid ws base).1.isNone

/-! ## Stop flow (src/container.c `stop_rootfs`,
`cleanup_container_resources`; src/mount.c `unmount_rootfs_img`)

The signalling part of `stop_rootfs` polls `kill(pid, 0)` at 5 Hz; poll `k`
happens `0.2 k` seconds after the first signal.  `alive k` abstracts the
outcome of the `k`-th poll (the first escalation loop uses polls `0…74`, the
post-SIGKILL confirmation loop polls `75…99`). -/

/-- The signals `stop_rootfs` can send. -/
inductive SigKind where
  | rtmin3
  | term
  | kill
  deriving Repr, DecidableEq

/-- Observable events of the signalling part of `stop_rootfs`. -/
inductive StopEvent where
  /-- `write_file("Pids/<name>.restart", "1")` -/
  | writeRestartMarker
  /-- `kill(pid, sig)` -/
  | signal (s : SigKind)
  /-- the `k`-th `kill(pid, 0)` aliveness poll -/
  | pollAlive (k : Nat)
  deriving Repr, DecidableEq

/-- `DS_STOP_TIMEOUT` (src/droidspace.h line 69), in seconds. -/
def DS_STOP_TIMEOUT : Nat := 15

/-- The first escalation loop of `stop_rootfs` (src/container.c lines
544–555): up to `DS_STOP_TIMEOUT * 5` polls at 200 ms; on the poll that finds
the process gone the loop breaks with `stopped = 1`; otherwise, after the
200 ms sleep of iteration `i = 10`, SIGTERM is sent.  Returns the events and
the `stopped` flag. -/
def stop_poll_loop (alive : Nat → Bool) : Nat → Nat → List StopEvent × Bool
  | 0, _ => ([], false)
  | fuel + 1, i =>
    if ¬ alive i then ([.pollAlive i], true)
    else
      let tail := stop_poll_loop alive fuel (i + 1)
      (.pollAlive i :: (if i = 10 then [.signal .term] else []) ++ tail.1,
       tail.2)

/-- The post-SIGKILL confirmation loop (src/container.c lines 567–574):
up to 25 polls at 200 ms, stopping at the first poll that finds the process
gone. -/
def stop_kill_wait (alive : Nat → Bool) : Nat → Nat → List StopEvent
  | 0, _ => []
  | fuel + 1, j =>
    if ¬ alive j then [.pollAlive j]
    else .pollAlive j :: stop_kill_wait alive fuel (j + 1)

/-- The signalling sequence of `stop_rootfs` (src/container.c lines
523–582): optional restart marker, SIGRTMIN+3, the escalation loop, and —
only when the loop timed out — SIGKILL followed by the confirmation loop. -/
def stop_signal_sequence (alive : Nat → Bool) (skip_unmount : Bool) :
    List StopEvent :=
  (if skip_unmount then [.writeRestartMarker] else []) ++
  .signal .rtmin3 ::
    (let l1 := stop_poll_loop alive (DS_STOP_TIMEOUT * 5) 0
     l1.1 ++
       (if ¬ l1.2 then
          .signal .kill :: stop_kill_wait alive 25 (DS_STOP_TIMEOUT * 5)
        else []))

/-- The configuration fields `cleanup_container_resources` consults. -/
structure StopCfg where
  name : String
  volatile_mode : Bool
  volatile_dir : String

/-- `cleanup_container_resources` (src/container.c lines 20–78) as a
transformation of the workspace: volatile-overlay unmounts, the loop image
unmount (`unmount_rootfs_img`, src/mount.c lines 598–625, skipped when
`skip_unmount`), and — only when `skip_unmount` is false — removal of the
`.mount` sidecar, the PID file, and any stale `.restart` marker.
(The `sync`, Android-optimisation and firmware-search-path steps do not
touch the state modelled here.) -/
def cleanup_container_resources (cfg : StopCfg) (skip_unmount : Bool)
    (ws : Workspace) : Workspace :=
  let ws1 :=
    if cfg.volatile_mode then
      { ws with mounted := fun p =>
          if p = cfg.volatile_dir ++ "/merged" ∨ p = cfg.volatile_dir then
            false
          else ws.mounted p }
    else ws
  let mp := (ws.mountfile cfg.name).getD ""
  let ws2 :=
    if mp ≠ "" ∧ ¬ skip_unmount then
      { ws1 with mounted := fun p => if p = mp then false else ws1.mounted p }
    else ws1
  if ¬ skip_unmount then
    { ws2 with
      pidfile := fun m => if m = cfg.name then none else ws2.pidfile m
      mountfile := fun m => if m = cfg.name then none else ws2.mountfile m
      restartMarker := fun m =>
        if m = cfg.name then false else ws2.restartMarker m }
  else ws2

/-- `stop_rootfs` (src/container.c lines 515–593): `check_status` resolves
the PID file from the name and validates it (failure returns -1 and touches
nothing); on success the signalling sequence runs and
`cleanup_container_resources` finishes.  Returns (exit code, events, final
workspace). -/
def stop_rootfs (cfg : StopCfg) (validPid : String → Bool)
    (alive : Nat → Bool) (skip_unmount : Bool) (ws : Workspace) :
    Int × List StopEvent × Workspace :=
  match ws.pidfile cfg.name with
  | none => (-1, [], ws)
  | some p =>
    if validPid p then
      (0, stop_signal_sequence alive skip_unmount,
       cleanup_container_resources cfg skip_unmount ws)
    else (-1, [], ws)

/-! ## Derived views used by the theorems -/

/-- The boot steps before the read-only `sys` remount (src/boot.c lines
10–146). -/
def bootPre (cfg : BootCfg) : List BootStep :=
  [.unshareMountNs, .makeRootPrivate] ++
  (if cfg.android then [.seccompSetup] else []) ++
  (if cfg.volatile_mode then [.volatileOverlay] else []) ++
  [.bindRootfsSelf, .chdirRootfs, .readUuidSync, .mkdirOldRoot, .setupDev,
   .mountProc, .mountSys, .mkdirCgroupDir] ++
  (if cfg.hw_access then [.hwSysBinds] else [.isolatedNetSysfs])

/-- The per-TTY binds between the console bind and the marker writes
(src/boot.c lines 178–183). -/
def bootMid (cfg : BootCfg) : List BootStep :=
  (List.range cfg.tty_count).map .bindTty

/-- The boot steps after the marker writes (src/boot.c lines 191–267). -/
def bootPost (cfg : BootCfg) : List BootStep :=
  (if cfg.android_storage then [.androidStorage] else []) ++
  [.customBinds, .pivotRoot, .setupDevpts, .fixNetworkingRootfs,
   .cleanupOldRoot, .writeContainerIdent, .envSetup, .consoleStdio, .execInit]

/-- The signals contained in a stop event list, in emission order. -/
def sigsOf (l : List StopEvent) : List SigKind :=
  l.filterMap fun e =>
    match e with
    | .signal s => some s
    | _ => none

/-- Optional double-quoting of an os-release value (`ID=alpine` vs
`ID="alpine"`). -/
def qwrap (q : Bool) (v : List Char) : List Char :=
  if q then '"' :: (v ++ ['"']) else v

/-- Characters admissible in an os-release `ID`/`VERSION_ID` value (the
os-release conventions: lower-case letters, digits, `.`, `-`, `_`). -/
def goodValChar (c : Char) : Bool :=
  c.isLower ∨ c.isDigit ∨ c = '.' ∨ c = '-' ∨ c = '_'

/-- A well-formed os-release value: non-empty, at most 63 characters (the
copy limit in `generate_container_name`), admissible characters only. -/
def goodVal (v : List Char) : Prop :=
  v ≠ [] ∧ v.length ≤ 63 ∧ ∀ c ∈ v, goodValChar c

instance (v : List Char) : Decidable (goodVal v) := by
  unfold goodVal; infer_instance

/-! ## Theorems settling the claims -/

/-- C7: `android_seccomp_setup` in src/android_seccomp.c is gated on the
kernel version: on a kernel with major version >= 5 it installs nothing and
returns 0; on major < 5 it first sets `PR_SET_NO_NEW_PRIVS` and then
installs the BPF filter, and that filter answers the key-management
syscalls `keyctl`, `add_key` and `request_key` (at the compiled
architecture's audit arch) with errno `ENOSYS`. -/
theorem claim_C7_seccomp_version_gate (abi : SeccompABI) (is_systemd : Bool)
    (major minor a0 : Nat)
    (h1 : abi.nrAddKey ≠ abi.nrKeyctl)
    (h2 : abi.nrRequestKey ≠ abi.nrKeyctl)
    (h3 : abi.nrRequestKey ≠ abi.nrAddKey) :
    (5 ≤ major → android_seccomp_setup abi is_systemd major minor = ([], 0)) ∧
    (major < 5 →
      android_seccomp_setup abi is_systemd major minor =
        ([.setNoNewPrivs, .installFilter (dsSeccompFilter abi)], 0) ∧
      bpfRun (dsSeccompFilter abi) ⟨abi.auditArch, abi.nrKeyctl, a0⟩ =
        some (.errno ENOSYS) ∧
      bpfRun (dsSeccompFilter abi) ⟨abi.auditArch, abi.nrAddKey, a0⟩ =
        some (.errno ENOSYS) ∧
      bpfRun (dsSeccompFilter abi) ⟨abi.auditArch, abi.nrRequestKey, a0⟩ =
        some (.errno ENOSYS)) := by
  constructor
  · intro h
    simp [android_seccomp_setup, h]
  · intro h
    refine ⟨?_, ?_, ?_, ?_⟩
    · simp [android_seccomp_setup, Nat.not_le.mpr h]
    · simp [bpfRun, bpfExec, dsSeccompFilter]
    · simp [bpfRun, bpfExec, dsSeccompFilter, h1]
    · simp [bpfRun, bpfExec, dsSeccompFilter, h2, h3]

theorem claim_C7_seccomp_version_gate_witness :
    (5 ≤ 4 → android_seccomp_setup abiX86_64 true 4 14 = ([], 0)) ∧
    (4 < 5 →
      android_seccomp_setup abiX86_64 true 4 14 =
        ([.setNoNewPrivs, .installFilter (dsSeccompFilter abiX86_64)], 0) ∧
      bpfRun (dsSeccompFilter abiX86_64) ⟨abiX86_64.auditArch, abiX86_64.nrKeyctl, 0⟩ =
        some (.errno ENOSYS) ∧
      bpfRun (dsSeccompFilter abiX86_64) ⟨abiX86_64.auditArch, abiX86_64.nrAddKey, 0⟩ =
        some (.errno ENOSYS) ∧
      bpfRun (dsSeccompFilter abiX86_64) ⟨abiX86_64.auditArch, abiX86_64.nrRequestKey, 0⟩ =
        some (.errno ENOSYS)) :=
  claim_C7_seccomp_version_gate abiX86_64 true 4 14 0
    (by decide) (by decide) (by decide)

/-- C1 (code bug): with `is_systemd = false` on a 4.x kernel,
`android_seccomp_setup` still installs the filter containing the
`unshare`/`clone` namespace rules, and that filter returns errno `EPERM`
for `unshare(CLONE_NEWNS)` (flags 0x20000) and for `clone` with the same
namespace bit. The spec (and the header prototype and the caller in
boot.c) make those rules conditional on `is_systemd`; the definition in
android_seccomp.c ignores the argument, so they are unconditional. -/
theorem claim_C1_seccomp_eperm_unconditional :
    android_seccomp_setup abiX86_64 false 4 14 =
      ([.setNoNewPrivs, .installFilter (dsSeccompFilter abiX86_64)], 0) ∧
    bpfRun (dsSeccompFilter abiX86_64)
        ⟨abiX86_64.auditArch, abiX86_64.nrUnshare, 0x20000⟩ =
      some (.errno EPERM) ∧
    bpfRun (dsSeccompFilter abiX86_64)
        ⟨abiX86_64.auditArch, abiX86_64.nrClone, 0x20000⟩ =
      some (.errno EPERM) := by
  refine ⟨rfl, by decide, by decide⟩

/-- C3 counterexample: an environment where the bind destination resolves
outside the rootfs (`subpathOk = false`) but the target is not a symlink:
`process_custom_bind` performs the bind mount (`mountBind` occurs in the
trace) before rejecting the entry and undoing the mount, contradicting the
claim that the mount never occurs for an escaping destination. -/
theorem claim_C3_counterexample :
    (⟨true, false, true, false⟩ : BindEnv).subpathOk = false ∧
    process_custom_bind ⟨true, false, true, false⟩ =
      [.ensureParentDir, .mountBind, .rejectEscape, .umountDetach] ∧
    BindEvent.mountBind ∈ process_custom_bind ⟨true, false, true, false⟩ := by
  decide

/-- C3 amended: for every custom bind entry, a destination that is a
pre-existing symlink is rejected before any mount; a destination whose
resolved path escapes the rootfs is rejected only after the bind mount was
performed, and the mount is then undone with `umount2(..., MNT_DETACH)`
(src/mount.c `setup_custom_binds`). -/
theorem claim_C3_amended (env : BindEnv) :
    (env.srcExists = true → env.tgtIsSymlink = true →
      process_custom_bind env = [.ensureParentDir, .rejectSymlink]) ∧
    (env.srcExists = true → env.tgtIsSymlink = false → env.mountOk = false →
      process_custom_bind env = [.ensureParentDir, .mountBindFailed]) ∧
    (env.srcExists = true → env.tgtIsSymlink = false → env.mountOk = true →
      env.subpathOk = false →
      process_custom_bind env =
        [.ensureParentDir, .mountBind, .rejectEscape, .umountDetach]) := by
  rcases env with ⟨s, y, m, p⟩
  revert s y m p
  decide

theorem claim_C3_amended_witness :
    process_custom_bind ⟨true, true, false, false⟩ =
      [.ensureParentDir, .rejectSymlink] ∧
    process_custom_bind ⟨true, false, true, false⟩ =
      [.ensureParentDir, .mountBind, .rejectEscape, .umountDetach] :=
  ⟨(claim_C3_amended ⟨true, true, false, false⟩).1 rfl rfl,
   (claim_C3_amended ⟨true, false, true, false⟩).2.2 rfl rfl rfl rfl⟩

/-- C4 counterexample: on a concrete boot configuration, the
`internal_boot` step trace places cgroup setup strictly before the tmpfs
mount on `run` and before both marker writes, so the spec's ordering
(run tmpfs and markers before cgroups) does not hold. -/
theorem claim_C4_counterexample :
    let l := internal_boot_steps ⟨true, false, false, false, 6⟩
    l.count .cgroupSetup = 1 ∧ l.count .mountRunTmpfs = 1 ∧
    l.count .writeUuidMarker = 1 ∧ l.count .writeVersionMarker = 1 ∧
    ¬ (l.indexOf .mountRunTmpfs < l.indexOf .cgroupSetup) ∧
    ¬ (l.indexOf .writeUuidMarker < l.indexOf .cgroupSetup) ∧
    ¬ (l.indexOf .writeVersionMarker < l.indexOf .cgroupSetup) ∧
    l.indexOf .cgroupSetup < l.indexOf .mountRunTmpfs ∧
    l.indexOf .mountRunTmpfs < l.indexOf .writeUuidMarker := by
  decide

/-- C4 amended: for every boot configuration, `internal_boot`
(src/boot.c) runs cgroup setup immediately after the read-only remount of
`sys` and before the console-active mask, the tmpfs mount on `run`, the
console bind, and the writing of the `run` uuid and version marker files;
each of these steps occurs in exactly one place of the trace. -/
theorem claim_C4_amended (cfg : BootCfg) :
    internal_boot_steps cfg =
      bootPre cfg ++ .remountSysRO :: .cgroupSetup :: .maskConsoleActive ::
        .mountRunTmpfs :: .bindConsole ::
        (bootMid cfg ++ .writeUuidMarker :: .writeVersionMarker ::
          bootPost cfg) ∧
    BootStep.cgroupSetup ∉ bootPre cfg ∧
    BootStep.cgroupSetup ∉ bootMid cfg ∧
    BootStep.cgroupSetup ∉ bootPost cfg ∧
    BootStep.mountRunTmpfs ∉ bootPre cfg ∧
    BootStep.mountRunTmpfs ∉ bootMid cfg ∧
    BootStep.mountRunTmpfs ∉ bootPost cfg ∧
    BootStep.writeUuidMarker ∉ bootPre cfg ∧
    BootStep.writeUuidMarker ∉ bootMid cfg ∧
    BootStep.writeUuidMarker ∉ bootPost cfg ∧
    BootStep.writeVersionMarker ∉ bootPre cfg ∧
    BootStep.writeVersionMarker ∉ bootMid cfg ∧
    BootStep.writeVersionMarker ∉ bootPost cfg := by
  obtain ⟨a, v, h, s, t⟩ := cfg
  cases a <;> cases v <;> cases h <;> cases s <;>
    simp [internal_boot_steps, bootPre, bootMid, bootPost]

theorem find_available_name_go_spec (validPid : String → Bool) (base : String) :
    ∀ (fuel i : Nat) (ws : Workspace),
      ((find_available_name_go validPid base fuel i ws).1 = none ↔
        ∀ j < fuel, ∃ c, ws.pidfile (candidate_name base (i + j)) = some c ∧
          validPid c = true) ∧
      ((find_available_name_go validPid base fuel i ws).1 = none →
        (find_available_name_go validPid base fuel i ws).2 = ws) := by
  intro fuel
  induction fuel with
  | zero =>
    intro i ws
    simp [find_available_name_go]
  | succ f ih =>
    intro i ws
    rcases hpf : ws.pidfile (candidate_name base i) with _ | c
    · constructor
      · simp only [find_available_name_go, hpf]
        constructor
        · intro hc
          exact absurd hc (by simp)
        · intro hall
          rcases hall 0 (Nat.succ_pos f) with ⟨c, hc, _⟩
          rw [Nat.add_zero] at hc
          rw [hpf] at hc
          exact absurd hc (by simp)
      · simp [find_available_name_go, hpf]
    · by_cases hv : validPid c = true
      · have hrec := ih (i + 1) ws
        constructor
        · simp only [find_available_name_go, hpf, hv, if_pos]
          rw [hrec.1]
          constructor
          · intro hall j hj
            rcases Nat.eq_zero_or_pos j with rfl | hjpos
            · exact ⟨c, by simpa using hpf, hv⟩
            · rcases Nat.exists_eq_add_of_le hjpos with ⟨k, rfl⟩
              have := hall k (by omega)
              simpa [Nat.add_comm, Nat.add_assoc, Nat.add_left_comm] using this
          · intro hall k hk
            have := hall (1 + k) (by omega)
            simpa [Nat.add_comm, Nat.add_assoc, Nat.add_left_comm] using this
        · intro hnone
          simp only [find_available_name_go, hpf, hv, if_pos] at hnone ⊢
          exact (ih (i + 1) ws).2 hnone
      · have hv' : validPid c = false := by
          cases hb : validPid c
          · rfl
          · exact absurd hb hv
        constructor
        · simp only [find_available_name_go, hpf, hv']
          constructor
          · intro hc
            exact absurd hc (by simp)
          · intro hall
            rcases hall 0 (Nat.succ_pos f) with ⟨c2, hc2, hvc2⟩
            rw [Nat.add_zero, hpf] at hc2
            have : c2 = c := by injection hc2.symm
            rw [this] at hvc2
            rw [hv'] at hvc2
            exact absurd hvc2 (by simp)
        · intro hnone
          simp only [find_available_name_go, hpf, hv'] at hnone
          exact absurd hnone (by simp)

/-- C2 amended: starting with a requested name already used by a valid
running container does not fail: `find_available_name` (src/pid.c) falls
through to the first free or stale suffixed candidate and `start`
proceeds under it. The collision check fails (exit 1) exactly when the
base name and all numeric-suffix variants up to `DS_MAX_CONTAINERS = 1024`
candidates are held by valid running containers, and in that case the
workspace is unchanged. -/
theorem claim_C2_amended (validPid : String → Bool) (ws : Workspace)
    (base : String) :
    (start_name_collision_fails validPid ws base = true ↔
      ∀ i < DS_MAX_CONTAINERS,
        ∃ c, ws.pidfile (candidate_name base i) = some c ∧
          validPid c = true) ∧
    (start_name_collision_fails validPid ws base = true →
      (find_available_name validPid ws base).2 = ws) := by
  have hspec := find_available_name_go_spec validPid base DS_MAX_CONTAINERS 0 ws
  constructor
  · rw [show (start_name_collision_fails validPid ws base = true) ↔
        ((find_available_name validPid ws base).1 = none) by
      simp [start_name_collision_fails, Option.isNone_iff_eq_none]]
    rw [find_available_name] at *
    rw [hspec.1]
    simp
  · intro hfail
    have hnone : (find_available_name validPid ws base).1 = none := by
      simpa [start_name_collision_fails, Option.isNone_iff_eq_none] using hfail
    exact hspec.2 hnone

def wsEx : Workspace :=
  { pidfile := fun n => if n = "debian" then some "4242" else none
    mountfile := fun _ => none
    restartMarker := fun _ => false
    mounted := fun _ => false }

def validEx : String → Bool := fun c => c = "4242"

/-- C2 counterexample: a workspace in which the requested name `web` is
held by a valid running container but `web-1` is free: the start-time
collision check does not fail; it selects `web-1`, contradicting the
claim that start fails whenever the requested name is in use. -/
theorem claim_C2_counterexample :
    wsEx.pidfile "debian" = some "4242" ∧ validEx "4242" = true ∧
    start_name_collision_fails validEx wsEx "debian" = false := by
  refine ⟨rfl, rfl, ?_⟩
  rfl

def wsFull : Workspace :=
  { pidfile := fun _ => some "7"
    mountfile := fun _ => none
    restartMarker := fun _ => false
    mounted := fun _ => false }

set_option maxRecDepth 40000 in
theorem claim_C2_amended_witness :
    start_name_collision_fails (fun _ => true) wsFull "web" = true ∧
    (find_available_name (fun _ => true) wsFull "web").2 = wsFull := by
  have hfail : start_name_collision_fails (fun _ => true) wsFull "web" = true := by
    rfl
  exact ⟨hfail, (claim_C2_amended (fun _ => true) wsFull "web").2 hfail⟩

theorem sigsOf_nil : sigsOf [] = [] := rfl

theorem sigsOf_cons_poll (k : Nat) (l : List StopEvent) :
    sigsOf (.pollAlive k :: l) = sigsOf l := rfl

theorem sigsOf_cons_marker (l : List StopEvent) :
    sigsOf (.writeRestartMarker :: l) = sigsOf l := rfl

theorem sigsOf_cons_signal (s : SigKind) (l : List StopEvent) :
    sigsOf (.signal s :: l) = s :: sigsOf l := rfl

theorem sigsOf_append (a b : List StopEvent) :
    sigsOf (a ++ b) = sigsOf a ++ sigsOf b :=
  List.filterMap_append a b _

theorem sigsOf_mem_iff (l : List StopEvent) (s : SigKind) :
    s ∈ sigsOf l ↔ StopEvent.signal s ∈ l := by
  induction l with
  | nil => simp [sigsOf]
  | cons e t ih =>
    cases e with
    | writeRestartMarker => simp [sigsOf_cons_marker, ih]
    | pollAlive k => simp [sigsOf_cons_poll, ih]
    | signal s2 => simp [sigsOf_cons_signal, ih, List.mem_cons]

theorem stop_poll_loop_term_mem (alive : Nat → Bool) :
    ∀ (f i : Nat), StopEvent.signal .term ∈ (stop_poll_loop alive f i).1 →
      ∀ k, i ≤ k → k ≤ 10 → alive k = true := by
  intro f
  induction f with
  | zero => intro i h; simp [stop_poll_loop] at h
  | succ f ih =>
    intro i h k hik hk10
    simp only [stop_poll_loop] at h
    by_cases ha : alive i
    · rw [if_neg (by simpa using ha)] at h
      rcases Nat.eq_or_lt_of_le hik with rfl | hlt
      · exact ha
      · simp only [List.mem_append, List.mem_cons] at h
        rcases h with (h | h) | h
        · exact absurd h (by simp)
        · by_cases h10 : i = 10
          · omega
          · simp [h10] at h
        · exact ih (i + 1) h k (by omega) hk10
    · rw [if_pos (by simpa using ha)] at h
      simp at h

theorem stop_poll_loop_not_stopped (alive : Nat → Bool) :
    ∀ (f i : Nat), (stop_poll_loop alive f i).2 = false →
      ∀ k, i ≤ k → k < i + f → alive k = true := by
  intro f
  induction f with
  | zero => intro i _ k h1 h2; omega
  | succ f ih =>
    intro i hns k hik hkf
    simp only [stop_poll_loop] at hns
    by_cases ha : alive i
    · rw [if_neg (by simpa using ha)] at hns
      rcases Nat.eq_or_lt_of_le hik with rfl | hlt
      · exact ha
      · exact ih (i + 1) hns k (by omega) (by omega)
    · rw [if_pos (by simpa using ha)] at hns
      simp at hns

theorem stop_poll_loop_term_of_not_stopped (alive : Nat → Bool) :
    ∀ (f i : Nat), (stop_poll_loop alive f i).2 = false →
      i ≤ 10 → 10 < i + f →
      StopEvent.signal .term ∈ (stop_poll_loop alive f i).1 := by
  intro f
  induction f with
  | zero => intro i _ h1 h2; omega
  | succ f ih =>
    intro i hns hi10 hif
    simp only [stop_poll_loop] at hns ⊢
    by_cases ha : alive i
    · rw [if_neg (by simpa using ha)] at hns ⊢
      dsimp only at hns
      by_cases h10 : i = 10
      · simp [h10]
      · refine List.mem_append.mpr (Or.inr ?_)
        exact ih (i + 1) hns (by omega) (by omega)
    · rw [if_pos (by simpa using ha)] at hns
      simp at hns

theorem stop_poll_loop_sigs_high (alive : Nat → Bool) :
    ∀ (f i : Nat), 10 < i → sigsOf (stop_poll_loop alive f i).1 = [] := by
  intro f
  induction f with
  | zero => intro i _; simp [stop_poll_loop, sigsOf_nil]
  | succ f ih =>
    intro i hi
    simp only [stop_poll_loop]
    by_cases ha : alive i
    · rw [if_neg (by simpa using ha)]
      have h10 : ¬ (i = 10) := by omega
      simp only [h10, if_false, List.nil_append, sigsOf_cons_poll]
      exact ih (i + 1) (by omega)
    · rw [if_pos (by simpa using ha)]
      simp [sigsOf]

theorem stop_poll_loop_sigs (alive : Nat → Bool) :
    ∀ (f i : Nat), i ≤ 10 →
      sigsOf (stop_poll_loop alive f i).1 = [] ∨
      sigsOf (stop_poll_loop alive f i).1 = [.term] := by
  intro f
  induction f with
  | zero => intro i _; left; simp [stop_poll_loop, sigsOf_nil]
  | succ f ih =>
    intro i hi
    simp only [stop_poll_loop]
    by_cases ha : alive i
    · rw [if_neg (by simpa using ha)]
      dsimp only
      by_cases h10 : i = 10
      · subst h10
        right
        rw [if_pos rfl, sigsOf_append, sigsOf_cons_poll, sigsOf_cons_signal,
          sigsOf_nil, stop_poll_loop_sigs_high alive f (10 + 1) (by omega),
          List.append_nil]
      · rw [if_neg h10, sigsOf_append, sigsOf_cons_poll, sigsOf_nil,
          List.nil_append]
        exact ih (i + 1) (by omega)
    · rw [if_pos (by simpa using ha)]
      left
      rfl

theorem stop_kill_wait_sigs (alive : Nat → Bool) :
    ∀ (f j : Nat), sigsOf (stop_kill_wait alive f j) = [] := by
  intro f
  induction f with
  | zero => intro j; simp [stop_kill_wait, sigsOf_nil]
  | succ f ih =>
    intro j
    simp only [stop_kill_wait]
    by_cases ha : alive j
    · rw [if_neg (by simpa using ha)]
      simpa [sigsOf_cons_poll] using ih (j + 1)
    · rw [if_pos (by simpa using ha)]
      simp [sigsOf]

theorem stop_kill_wait_mem (alive : Nat → Bool) :
    ∀ (f j : Nat) (e : StopEvent), e ∈ stop_kill_wait alive f j →
      ∃ k, e = .pollAlive k ∧ j ≤ k ∧ k < j + f := by
  intro f
  induction f with
  | zero => intro j e h; simp [stop_kill_wait] at h
  | succ f ih =>
    intro j e h
    simp only [stop_kill_wait] at h
    by_cases ha : alive j
    · rw [if_neg (by simpa using ha)] at h
      rcases List.mem_cons.mp h with rfl | h
      · exact ⟨j, rfl, by omega, by omega⟩
      · rcases ih (j + 1) e h with ⟨k, he, h1, h2⟩
        exact ⟨k, he, by omega, by omega⟩
    · rw [if_pos (by simpa using ha)] at h
      simp at h
      exact ⟨j, h, by omega, by omega⟩

theorem stop_kill_wait_len (alive : Nat → Bool) :
    ∀ (f j : Nat), (stop_kill_wait alive f j).length ≤ f := by
  intro f
  induction f with
  | zero => intro j; simp [stop_kill_wait]
  | succ f ih =>
    intro j
    simp only [stop_kill_wait]
    by_cases ha : alive j
    · rw [if_neg (by simpa using ha)]
      have := ih (j + 1)
      simp only [List.length_cons]
      omega
    · rw [if_pos (by simpa using ha)]
      simp

/-- C5: `stop_rootfs` (src/container.c) escalates signals in the order
SIGRTMIN+3, then SIGTERM at the 2-second poll (iteration 10 of the 200 ms
polls), then SIGKILL only after all 75 polls of the
`DS_STOP_TIMEOUT = 15` second window fail, followed by up to 25
confirmation polls; the signal subsequence of every trace is a prefix of
[SIGRTMIN+3, SIGTERM, SIGKILL], and with `skip_unmount` the `.restart`
marker is written before the first signal. -/
theorem claim_C5_stop_escalation (alive : Nat → Bool) (skip_unmount : Bool) :
    (skip_unmount = true →
      ∃ rest, stop_signal_sequence alive skip_unmount =
        .writeRestartMarker :: .signal .rtmin3 :: rest) ∧
    (skip_unmount = false →
      ∃ rest, stop_signal_sequence alive skip_unmount =
        .signal .rtmin3 :: rest) ∧
    sigsOf (stop_signal_sequence alive skip_unmount) <+:
      [SigKind.rtmin3, SigKind.term, SigKind.kill] ∧
    (StopEvent.signal .term ∈ stop_signal_sequence alive skip_unmount →
      ∀ k, k ≤ 10 → alive k = true) ∧
    (StopEvent.signal .kill ∈ stop_signal_sequence alive skip_unmount →
      (∀ k, k < DS_STOP_TIMEOUT * 5 → alive k = true) ∧
      ∃ pre,
        stop_signal_sequence alive skip_unmount =
          pre ++ .signal .kill ::
            stop_kill_wait alive 25 (DS_STOP_TIMEOUT * 5) ∧
        (stop_kill_wait alive 25 (DS_STOP_TIMEOUT * 5)).length ≤ 25 ∧
        ∀ e ∈ stop_kill_wait alive 25 (DS_STOP_TIMEOUT * 5),
          ∃ k, e = .pollAlive k ∧ DS_STOP_TIMEOUT * 5 ≤ k ∧
            k < DS_STOP_TIMEOUT * 5 + 25) := by
  refine ⟨?_, ?_, ?_, ?_, ?_⟩
  · intro hs
    subst hs
    exact ⟨_, rfl⟩
  · intro hs
    subst hs
    exact ⟨_, rfl⟩
  · rcases hstop : (stop_poll_loop alive (DS_STOP_TIMEOUT * 5) 0).2 with _ | _
    · -- loop timed out: SIGKILL path
      have hterm := stop_poll_loop_term_of_not_stopped alive
        (DS_STOP_TIMEOUT * 5) 0 hstop (by omega) (by decide)
      have hsigs := stop_poll_loop_sigs alive (DS_STOP_TIMEOUT * 5) 0
        (by omega)
      have hsig1 : sigsOf (stop_poll_loop alive (DS_STOP_TIMEOUT * 5) 0).1 =
          [.term] := by
        rcases hsigs with hsig | hsig
        · exfalso
          have := (sigsOf_mem_iff _ .term).mpr hterm
          rw [hsig] at this
          simp at this
        · exact hsig
      unfold stop_signal_sequence
      dsimp only
      rw [hstop]
      cases skip_unmount <;>
        simp [sigsOf_append, sigsOf_cons_marker, sigsOf_cons_signal,
          sigsOf_nil, hsig1, stop_kill_wait_sigs]
    · -- process exited during the escalation loop: no SIGKILL
      have hsigs := stop_poll_loop_sigs alive (DS_STOP_TIMEOUT * 5) 0
        (by omega)
      unfold stop_signal_sequence
      dsimp only
      rw [hstop]
      rcases hsigs with hsig | hsig <;>
        cases skip_unmount <;>
          simp [sigsOf_append, sigsOf_cons_marker, sigsOf_cons_signal,
            sigsOf_nil, hsig]
  · intro h k hk
    unfold stop_signal_sequence at h
    dsimp only at h
    have hmem : StopEvent.signal .term ∈
        (stop_poll_loop alive (DS_STOP_TIMEOUT * 5) 0).1 := by
      rcases List.mem_append.mp h with h1 | h2
      · exfalso
        cases skip_unmount <;> simp at h1
      · rcases List.mem_cons.mp h2 with h3 | h4
        · exact absurd h3 (by simp)
        · rcases List.mem_append.mp h4 with h5 | h6
          · exact h5
          · exfalso
            rcases hstop : (stop_poll_loop alive (DS_STOP_TIMEOUT * 5) 0).2
              with _ | _
            · rw [hstop] at h6
              rw [if_pos (by simp)] at h6
              rcases List.mem_cons.mp h6 with h7 | h8
              · exact absurd h7 (by simp)
              · rcases stop_kill_wait_mem alive 25 (DS_STOP_TIMEOUT * 5) _ h8
                  with ⟨k2, hk2, _, _⟩
                simp at hk2
            · rw [hstop] at h6
              rw [if_neg (by simp)] at h6
              simp at h6
    exact stop_poll_loop_term_mem alive (DS_STOP_TIMEOUT * 5) 0 hmem k
      (by omega) hk
  · intro h
    have hstop : (stop_poll_loop alive (DS_STOP_TIMEOUT * 5) 0).2 = false := by
      rcases hstop : (stop_poll_loop alive (DS_STOP_TIMEOUT * 5) 0).2
        with _ | _
      · rfl
      · exfalso
        unfold stop_signal_sequence at h
        dsimp only at h
        rw [hstop] at h
        simp only [Bool.not_true, if_neg, List.append_nil] at h
        rcases List.mem_append.mp h with h1 | h2
        · cases skip_unmount <;> simp at h1
        · rcases List.mem_cons.mp h2 with h3 | h4
          · exact absurd h3 (by simp)
          · have h5 : StopEvent.signal .kill ∈
                (stop_poll_loop alive (DS_STOP_TIMEOUT * 5) 0).1 := by
              simpa using h4
            have h6 := (sigsOf_mem_iff _ .kill).mpr h5
            rcases stop_poll_loop_sigs alive (DS_STOP_TIMEOUT * 5) 0
              (by omega) with hsig | hsig <;> rw [hsig] at h6 <;> simp at h6
    refine ⟨fun k hk => stop_poll_loop_not_stopped alive (DS_STOP_TIMEOUT * 5)
      0 hstop k (by omega) (by omega), ?_⟩
    refine ⟨(if skip_unmount then [.writeRestartMarker] else []) ++
      .signal .rtmin3 :: (stop_poll_loop alive (DS_STOP_TIMEOUT * 5) 0).1,
      ?_, stop_kill_wait_len alive 25 (DS_STOP_TIMEOUT * 5), ?_⟩
    · unfold stop_signal_sequence
      dsimp only
      rw [hstop]
      simp
    · intro e he
      rcases stop_kill_wait_mem alive 25 (DS_STOP_TIMEOUT * 5) e he
        with ⟨k, hke, h1, h2⟩
      exact ⟨k, hke, h1, h2⟩

theorem claim_C5_stop_escalation_witness :
    (true = true →
      ∃ rest, stop_signal_sequence (fun _ => true) true =
        .writeRestartMarker :: .signal .rtmin3 :: rest) ∧
    (true = false →
      ∃ rest, stop_signal_sequence (fun _ => true) true =
        .signal .rtmin3 :: rest) ∧
    sigsOf (stop_signal_sequence (fun _ => true) true) <+:
      [SigKind.rtmin3, SigKind.term, SigKind.kill] ∧
    (StopEvent.signal .term ∈ stop_signal_sequence (fun _ => true) true →
      ∀ k, k ≤ 10 → (fun _ => true : Nat → Bool) k = true) ∧
    (StopEvent.signal .kill ∈ stop_signal_sequence (fun _ => true) true →
      (∀ k, k < DS_STOP_TIMEOUT * 5 →
        (fun _ => true : Nat → Bool) k = true) ∧
      ∃ pre,
        stop_signal_sequence (fun _ => true) true =
          pre ++ .signal .kill ::
            stop_kill_wait (fun _ => true) 25 (DS_STOP_TIMEOUT * 5) ∧
        (stop_kill_wait (fun _ => true) 25 (DS_STOP_TIMEOUT * 5)).length
          ≤ 25 ∧
        ∀ e ∈ stop_kill_wait (fun _ => true) 25 (DS_STOP_TIMEOUT * 5),
          ∃ k, e = .pollAlive k ∧ DS_STOP_TIMEOUT * 5 ≤ k ∧
            k < DS_STOP_TIMEOUT * 5 + 25) :=
  claim_C5_stop_escalation (fun _ => true) true

/-- C6: on a successful stop with `skip_unmount = false`,
`cleanup_container_resources` (src/container.c) unmounts the path recorded
in the `.mount` sidecar when one is recorded, and removes the `.pid`,
`.mount` and `.restart` sidecar files of the container name. -/
theorem claim_C6_stop_cleanup (cfg : StopCfg) (validPid : String → Bool)
    (alive : Nat → Bool) (ws : Workspace)
    (hrun : (stop_rootfs cfg validPid alive false ws).1 = 0) :
    ((stop_rootfs cfg validPid alive false ws).2.2).pidfile cfg.name =
      none ∧
    ((stop_rootfs cfg validPid alive false ws).2.2).mountfile cfg.name =
      none ∧
    ((stop_rootfs cfg validPid alive false ws).2.2).restartMarker cfg.name =
      false ∧
    ∀ mp, ws.mountfile cfg.name = some mp → mp ≠ "" →
      ((stop_rootfs cfg validPid alive false ws).2.2).mounted mp = false := by
  unfold stop_rootfs at hrun ⊢
  rcases hpf : ws.pidfile cfg.name with _ | p
  · rw [hpf] at hrun
    dsimp only at hrun
    simp at hrun
  · rw [hpf] at hrun
    dsimp only at hrun ⊢
    by_cases hv : validPid p = true
    · rw [if_pos hv] at hrun ⊢
      unfold cleanup_container_resources
      dsimp only
      refine ⟨by simp, by simp, by simp, ?_⟩
      intro mp hmp hne
      rw [hmp]
      simp [hne]
    · rw [if_neg hv] at hrun
      simp at hrun

def stopCfgEx : StopCfg := ⟨"alpine", false, "/var/lib/Droidspaces/Volatile/alpine"⟩

def wsRun : Workspace :=
  { pidfile := fun n => if n = "alpine" then some "99" else none
    mountfile := fun n =>
      if n = "alpine" then some "/mnt/Droidspaces/alpine" else none
    restartMarker := fun _ => false
    mounted := fun p => p = "/mnt/Droidspaces/alpine" }

theorem claim_C6_stop_cleanup_witness :
    ((stop_rootfs stopCfgEx (fun _ => true) (fun k => k < 3) false
      wsRun).2.2).pidfile "alpine" = none ∧
    ((stop_rootfs stopCfgEx (fun _ => true) (fun k => k < 3) false
      wsRun).2.2).mountfile "alpine" = none ∧
    ((stop_rootfs stopCfgEx (fun _ => true) (fun k => k < 3) false
      wsRun).2.2).restartMarker "alpine" = false ∧
    ∀ mp, wsRun.mountfile "alpine" = some mp → mp ≠ "" →
      ((stop_rootfs stopCfgEx (fun _ => true) (fun k => k < 3) false
        wsRun).2.2).mounted mp = false := by
  have h := claim_C6_stop_cleanup stopCfgEx (fun _ => true) (fun k => k < 3)
    wsRun (by rfl)
  simpa [stopCfgEx] using h

theorem strstrIdx_isSome_iff (pat hay : List Char) :
    (strstrIdx pat hay).isSome = true ↔ pat <:+: hay := by
  induction hay with
  | nil =>
    by_cases h : pat.isPrefixOf ([] : List Char)
    · simp only [strstrIdx, h, if_true, Option.isSome_some, true_iff]
      rcases List.isPrefixOf_iff_prefix.mp h with ⟨t, ht⟩
      exact ⟨[], t, by simpa using ht⟩
    · simp only [strstrIdx, h, if_false, Option.isSome_none]
      constructor
      · intro hc; exact absurd hc (by simp)
      · intro hc
        rcases hc with ⟨s, t, hst⟩
        have hpn : pat = [] :=
          (List.append_eq_nil.mp (List.append_eq_nil.mp hst).1).2
        subst hpn
        exact absurd (by simp [List.isPrefixOf]) h
  | cons a t ih =>
    simp only [strstrIdx]
    by_cases h : pat.isPrefixOf (a :: t)
    · simp only [h, if_true, Option.isSome_some, true_iff]
      rcases List.isPrefixOf_iff_prefix.mp h with ⟨r, hr⟩
      exact ⟨[], r, by simpa using hr⟩
    · rw [if_neg h]
      rw [show (Option.map (· + 1) (strstrIdx pat t)).isSome =
        (strstrIdx pat t).isSome by cases strstrIdx pat t <;> rfl]
      rw [ih, List.infix_cons_iff]
      constructor
      · intro hi; exact Or.inr hi
      · intro hi
        rcases hi with hp | hi
        · exact absurd (List.isPrefixOf_iff_prefix.mpr hp) h
        · exact hi

theorem dropWhile_eq_self_of_forall (p : Char → Bool) (l : List Char)
    (h : ∀ c ∈ l, p c = false) : l.dropWhile p = l := by
  cases l with
  | nil => rfl
  | cons a t =>
    rw [List.dropWhile_cons, h a (List.mem_cons_self a t)]
    simp

theorem trim_eq_self (l : List Char) (h : ∀ c ∈ l, isspaceC c = false) :
    trim_whitespace l = l := by
  unfold trim_whitespace
  rw [dropWhile_eq_self_of_forall _ _ h,
    dropWhile_eq_self_of_forall _ _ (fun c hc => h c (by simpa using hc)),
    List.reverse_reverse]

theorem cstr_eq_self (l : List Char) (h : ∀ c ∈ l, c ≠ '\x00') :
    cstr l = l := by
  unfold cstr
  rw [List.takeWhile_eq_self_iff.mpr]
  intro x hx
  simpa using h x hx

theorem strchrIdx_append_notMem (ch : Char) (A B : List Char)
    (h : ch ∉ A) :
    strchrIdx ch (A ++ B) = (strchrIdx ch B).map (· + A.length) := by
  induction A with
  | nil =>
    simp only [List.nil_append, List.length_nil]
    cases strchrIdx ch B <;> simp
  | cons a A ih =>
    have ha : ¬ (a = ch) := fun hc => h (by simp [hc])
    simp only [List.cons_append, strchrIdx, ha, if_false, List.append_eq]
    rw [ih (fun hc => h (by simp [hc]))]
    cases strchrIdx ch B with
    | none => rfl
    | some v =>
      simp only [Option.map_some', List.length_cons]
      rfl

/-- The `rootfs_path` line of `ds_config_load` routes on
`strstr(val, ".img")`. -/
theorem apply_line_rootfs_path (cfg : DsConfig) (val : List Char)
    (hlen : val.length ≤ 2000)
    (hval : ∀ c ∈ val, isspaceC c = false ∧ c ≠ '\x00') :
    ds_config_apply_line cfg ("rootfs_path=".toList ++ val) =
      if (strstrIdx ".img".toList val).isSome then
        { cfg with rootfs_img_path := val, is_img_mount := true }
      else { cfg with rootfs_path := val } := by
  have hsplit : "rootfs_path=".toList ++ val =
      "rootfs_path".toList ++ ('=' :: val) := by
    rw [show "rootfs_path=".toList = "rootfs_path".toList ++ ['='] from rfl]
    simp
  have hline : ∀ c ∈ "rootfs_path=".toList ++ val,
      isspaceC c = false ∧ c ≠ '\x00' := by
    intro c hc
    rcases List.mem_append.mp hc with hc | hc
    · have hlit : ∀ c ∈ "rootfs_path=".toList,
          isspaceC c = false ∧ c ≠ '\x00' := by decide
      exact hlit c hc
    · exact hval c hc
  have h0 : ("rootfs_path=".toList ++ val).take 2047 =
      "rootfs_path=".toList ++ val := by
    apply List.take_of_length_le
    rw [List.length_append, show ("rootfs_path=".toList).length = 12
      from rfl]
    omega
  have h1 : cstr ("rootfs_path=".toList ++ val) =
      "rootfs_path=".toList ++ val :=
    cstr_eq_self _ (fun c hc => (hline c hc).2)
  have h2 : trim_whitespace ("rootfs_path=".toList ++ val) =
      "rootfs_path=".toList ++ val :=
    trim_eq_self _ (fun c hc => (hline c hc).1)
  have heq : strchrIdx '=' ("rootfs_path=".toList ++ val) = some 11 := by
    rw [hsplit, strchrIdx_append_notMem '=' "rootfs_path".toList ('=' :: val)
      (by decide)]
    rw [show strchrIdx '=' ('=' :: val) = some 0 by simp [strchrIdx]]
    rfl
  have htake : ("rootfs_path=".toList ++ val).take 11 =
      "rootfs_path".toList := by
    rw [hsplit]
    exact List.take_left' (by rfl)
  have hdrop : ("rootfs_path=".toList ++ val).drop 12 = val :=
    List.drop_left' (by rfl)
  have hhead : ("rootfs_path=".toList ++ val).head? = some 'r' := by
    rw [show "rootfs_path=".toList = 'r' :: "ootfs_path=".toList from rfl]
    rfl
  have hne : ("rootfs_path=".toList ++ val) ≠ [] := by
    rw [hsplit]
    simp
  unfold ds_config_apply_line
  rw [h0, h1, h2]
  rw [if_neg (by rw [hhead]; simp [hne])]
  rw [heq]
  dsimp only
  rw [htake, hdrop]
  rw [trim_eq_self _ (by decide),
    trim_eq_self val (fun c hc => (hval c hc).1)]
  rw [if_neg (by decide), if_neg (by decide),
    if_pos (show "rootfs_path".toList = "rootfs_path".toList from rfl)]
  have hv4095 : val.take 4095 = val := List.take_of_length_le (by omega)
  by_cases himg : (strstrIdx ".img".toList val).isSome
  · rw [if_pos himg, if_pos himg, hv4095]
  · rw [if_neg himg, if_neg himg, hv4095]


/-- C10: `ds_config_load` (src/config.c) routes a `rootfs_path` value by
the substring test `strstr(val, ".img")`: a value containing `.img`
anywhere is stored as the image path with `is_img_mount = 1`; otherwise it
is stored as the plain rootfs directory path with `is_img_mount`
untouched. -/
theorem claim_C10_config_img_routing (cfg : DsConfig) (val : List Char)
    (hlen : val.length ≤ 2000)
    (hval : ∀ c ∈ val, isspaceC c = false ∧ c ≠ '\x00') :
    ((".img".toList <:+: val) →
      (ds_config_apply_line cfg
          ("rootfs_path=".toList ++ val)).rootfs_img_path = val ∧
      (ds_config_apply_line cfg
          ("rootfs_path=".toList ++ val)).is_img_mount = true ∧
      (ds_config_apply_line cfg
          ("rootfs_path=".toList ++ val)).rootfs_path = cfg.rootfs_path) ∧
    (¬ (".img".toList <:+: val) →
      (ds_config_apply_line cfg
          ("rootfs_path=".toList ++ val)).rootfs_path = val ∧
      (ds_config_apply_line cfg
          ("rootfs_path=".toList ++ val)).rootfs_img_path =
        cfg.rootfs_img_path ∧
      (ds_config_apply_line cfg
          ("rootfs_path=".toList ++ val)).is_img_mount =
        cfg.is_img_mount) := by
  rw [apply_line_rootfs_path cfg val hlen hval]
  constructor
  · intro hinf
    rw [if_pos ((strstrIdx_isSome_iff _ _).mpr hinf)]
    exact ⟨rfl, rfl, rfl⟩
  · intro hinf
    rw [if_neg (fun hs => hinf ((strstrIdx_isSome_iff _ _).mp hs))]
    exact ⟨rfl, rfl, rfl⟩

/-- A zeroed `struct ds_config = {0}` as `main` starts from. -/
def cfg0 : DsConfig :=
  { container_name := [], hostname := [], rootfs_path := []
    rootfs_img_path := [], pidfile := [], dns_servers := []
    is_img_mount := false, enable_ipv6 := 0, android_storage := 0
    hw_access := 0, selinux_permissive := 0, volatile_mode := 0
    foreground := 0, binds := [] }

theorem claim_C10_config_img_routing_witness :
    (".img".toList <:+: "/srv/dir.img-data".toList) ∧
    (ds_config_apply_line cfg0
        ("rootfs_path=".toList ++ "/srv/dir.img-data".toList)).rootfs_img_path
      = "/srv/dir.img-data".toList ∧
    (ds_config_apply_line cfg0
        ("rootfs_path=".toList ++ "/srv/dir.img-data".toList)).is_img_mount
      = true ∧
    (ds_config_apply_line cfg0
        ("rootfs_path=".toList ++ "/srv/dir.img-data".toList)).rootfs_path
      = cfg0.rootfs_path := by
  refine ⟨by decide, ?_⟩
  exact (claim_C10_config_img_routing cfg0 "/srv/dir.img-data".toList
    (by decide) (by decide)).1 (by decide)

theorem nsLine_eq (t : List Char) (h : t.length ≤ 115) :
    nsLine t = "nameserver ".toList ++ t ++ ['\n'] := by
  unfold nsLine
  apply List.take_of_length_le
  simp only [List.length_append, List.length_cons, List.length_nil]
  have h11 : ("nameserver ".toList).length = 11 := rfl
  omega

theorem appendCustomDns_spec :
    ∀ (tokens : List (List Char)) (out : List Char) (count : Nat),
      (∀ t ∈ tokens, t.length ≤ 115) →
      out.length + (tokens.map (fun t => 12 + t.length)).sum ≤ 960 →
      appendCustomDns 1024 tokens out count =
        (out ++ (tokens.map (fun t =>
          "nameserver ".toList ++ t ++ ['\n'])).flatten,
         count + tokens.length) := by
  intro tokens
  induction tokens with
  | nil =>
    intro out count _ _
    simp [appendCustomDns]
  | cons t ts ih =>
    intro out count hlen hcap
    have hguard : out.length < 1024 - 64 := by
      simp only [List.map_cons, List.sum_cons] at hcap
      omega
    unfold appendCustomDns
    rw [if_pos hguard]
    rw [nsLine_eq t (hlen t (by simp))]
    rw [ih (out ++ ("nameserver ".toList ++ t ++ ['\n'])) (count + 1)
      (fun u hu => hlen u (by simp [hu]))
      (by
        simp only [List.map_cons, List.sum_cons] at hcap
        simp only [List.length_append, List.length_cons, List.length_nil]
        have h11 : ("nameserver ".toList).length = 11 := rfl
        omega)]
    simp only [List.map_cons, List.flatten_cons, List.length_cons,
      Prod.mk.injEq]
    constructor
    · simp [List.append_assoc]
    · omega

theorem fillDnsLoop_snd_of_fst_nil :
    ∀ (ls : List (List Char)) (d1 d2 : List Char),
      (fillDnsLoop ls d1 d2).1 = [] → (fillDnsLoop ls d1 d2).2 = d2 := by
  intro ls
  induction ls with
  | nil => intro d1 d2 _; rfl
  | cons l ls ih =>
    intro d1 d2 h
    unfold fillDnsLoop at h ⊢
    cases hp : parsePropLine l with
    | none =>
      rw [hp] at h
      dsimp only at h ⊢
      exact ih d1 d2 h
    | some v =>
      rw [hp] at h
      dsimp only at h ⊢
      by_cases h1 : d1 = []
      · simp only [h1, if_true, reduceIte] at h ⊢
        exact ih (v.take 63) d2 h
      · simp only [h1, if_false, reduceIte] at h ⊢
        by_cases h2 : d2 = [] ∧ v ≠ d1
        · rcases h2 with ⟨h2a, h2b⟩
          simp only [h2a, h2b, ne_eq, not_false_eq_true, and_self,
            if_true, reduceIte] at h
          exact absurd h h1
        · simp only [h2, if_false, reduceIte] at h ⊢
          exact ih d1 d2 h

/-- C8: `ds_get_dns_servers` (src/network.c) resolves DNS in priority
order: a non-empty custom `dns` config value contributes its
comma/space-separated servers first; otherwise, on Android,
`android_fill_dns_from_props` (src/android.c) contributes the
`net.dns1`/`net.dns2` property values; if the buffer is still empty, the
rootfs `/etc/resolv.conf` nameserver lines are used, and the hardcoded
fallback (8.8.8.8, 1.1.1.1) is appended only when everything above
produced nothing. -/
theorem claim_C8_dns_priority (custom : List Char) (android : Bool)
    (lines : List (List Char)) (tokens : List (List Char))
    (htok : strtok (custom.take 255) = tokens) :
    (tokens ≠ [] →
      (∀ t ∈ tokens, t.length ≤ 115) →
      (tokens.map (fun t => 12 + t.length)).sum ≤ 960 →
      ds_get_dns_servers custom android lines 1024 =
        ((tokens.map (fun t =>
          "nameserver ".toList ++ t ++ ['\n'])).flatten, tokens.length)) ∧
    (tokens = [] → android = true →
      (android_fill_dns_from_props lines).1 ≠ [] →
      ds_get_dns_servers custom android lines 1024 =
        ("nameserver ".toList ++ (android_fill_dns_from_props lines).1 ++
          '\n' :: (if (android_fill_dns_from_props lines).2 ≠ [] then
            "nameserver ".toList ++
              (android_fill_dns_from_props lines).2 ++ ['\n'] else []),
         if (android_fill_dns_from_props lines).2 ≠ [] then 2 else 1)) ∧
    (tokens = [] →
      (android = false ∨ (android_fill_dns_from_props lines).1 = []) →
      ds_get_dns_servers custom android lines 1024 = (dnsDefaults, 2)) := by
  refine ⟨?_, ?_, ?_⟩
  · intro hne hlen hcap
    have hcust : custom ≠ [] := by
      intro hc
      rw [hc] at htok
      exact hne (by rw [← htok]; rfl)
    unfold ds_get_dns_servers
    dsimp only
    rw [if_pos hcust, htok,
      appendCustomDns_spec tokens [] 0 hlen (by simpa using hcap)]
    have hlen0 : ¬ ((([] ++ (tokens.map (fun t =>
        "nameserver ".toList ++ t ++ ['\n'])).flatten,
        0 + tokens.length) : List Char × Nat).2 = 0 ∧ android = true) := by
      intro hand
      rcases hand with ⟨h0, _⟩
      simp only at h0
      exact hne (List.length_eq_zero.mp (by omega))
    rw [if_neg hlen0]
    rw [if_neg (by
      intro h0
      simp only at h0
      exact hne (List.length_eq_zero.mp (by omega)))]
    simp
  · intro htk ha hd1
    unfold ds_get_dns_servers
    dsimp only
    have hstep : (if custom ≠ [] then
        appendCustomDns 1024 (strtok (custom.take 255)) [] 0
        else ([], 0)) = ([], 0) := by
      by_cases hc : custom = []
      · rw [if_neg (by simp [hc])]
      · rw [if_pos hc, htok, htk]
        rfl
    rw [hstep]
    rw [if_pos (show ((([], 0) : List Char × Nat)).2 = 0 ∧ android = true
      from ⟨rfl, ha⟩)]
    dsimp only
    rw [if_pos hd1]
    by_cases hd2 : (android_fill_dns_from_props lines).2 ≠ []
    · rw [if_pos hd2, if_pos hd2, if_pos hd2]
      rw [if_neg (by norm_num)]
      simp [hd1, hd2, List.append_assoc]
    · have hd2e : (android_fill_dns_from_props lines).2 = [] :=
        not_not.mp hd2
      rw [if_neg hd2, if_neg hd2, if_neg hd2]
      rw [if_neg (by norm_num)]
      simp [hd1, hd2e]
  · intro htk hor
    unfold ds_get_dns_servers
    dsimp only
    have hstep : (if custom ≠ [] then
        appendCustomDns 1024 (strtok (custom.take 255)) [] 0
        else ([], 0)) = ([], 0) := by
      by_cases hc : custom = []
      · rw [if_neg (by simp [hc])]
      · rw [if_pos hc, htok, htk]
        rfl
    rw [hstep]
    by_cases hand : android = true
    · have hd1 : (android_fill_dns_from_props lines).1 = [] := by
        rcases hor with ha | hd1
        · rw [ha] at hand
          exact absurd hand (by simp)
        · exact hd1
      rw [if_pos (show ((([], 0) : List Char × Nat)).2 = 0 ∧ android = true
        from ⟨rfl, hand⟩)]
      dsimp only
      have hd2 : (android_fill_dns_from_props lines).2 = [] :=
        fillDnsLoop_snd_of_fst_nil lines [] [] hd1
      simp [hd1, hd2]
    · have hcond : ¬ ((([], 0) : List Char × Nat).2 = 0 ∧
          android = true) := fun hand2 => hand hand2.2
      rw [if_neg hcond]
      simp


theorem claim_C8_dns_priority_witness :
    ds_get_dns_servers "9.9.9.9 1.0.0.1".toList false [] 1024 =
      ((["9.9.9.9".toList, "1.0.0.1".toList].map (fun t =>
        "nameserver ".toList ++ t ++ ['\n'])).flatten,
       (["9.9.9.9".toList, "1.0.0.1".toList]).length) :=
  (claim_C8_dns_priority "9.9.9.9 1.0.0.1".toList false []
    ["9.9.9.9".toList, "1.0.0.1".toList] (by decide)).1
    (by decide) (by decide) (by decide)

theorem strstrIdx_append_of_head_notMem (c : Char) (pat A B : List Char)
    (h : c ∉ A) :
    strstrIdx (c :: pat) (A ++ B) =
      (strstrIdx (c :: pat) B).map (· + A.length) := by
  induction A with
  | nil =>
    simp only [List.nil_append, List.length_nil]
    cases strstrIdx (c :: pat) B <;> simp
  | cons a A ih =>
    have hca : ¬ (c == a) = true := by
      simp only [beq_iff_eq]
      intro hc
      exact h (by simp [hc])
    simp only [List.cons_append, strstrIdx, List.isPrefixOf, hca,
      Bool.false_and, Bool.false_eq_true, if_false, List.append_eq]
    rw [ih (fun hc => h (by simp [hc]))]
    cases strstrIdx (c :: pat) B with
    | none => rfl
    | some v =>
      simp only [Option.map_some', List.length_cons]
      rfl

theorem strstrIdx_none_of_head_notMem (c : Char) (pat hay : List Char)
    (h : c ∉ hay) : strstrIdx (c :: pat) hay = none := by
  induction hay with
  | nil => rfl
  | cons a t ih =>
    have hca : ¬ (c == a) = true := by
      simp only [beq_iff_eq]
      intro hc
      exact h (by simp [hc])
    simp only [strstrIdx, List.isPrefixOf, hca, Bool.false_and,
      Bool.false_eq_true, if_false]
    rw [ih (fun hc => h (by simp [hc]))]
    rfl

theorem cReadVal_go_all :
    ∀ (v : List Char) (n : Nat),
      (∀ a ∈ v, ¬ (a = '"' ∨ a = '\n')) → v.length ≤ n →
      cReadVal.go n v = v := by
  intro v
  induction v with
  | nil => intro n _ _; cases n <;> rfl
  | cons a t ih =>
    intro n hne hlen
    cases n with
    | zero => simp at hlen
    | succ n =>
      simp only [cReadVal.go]
      rw [if_neg (hne a (by simp))]
      rw [ih n (fun b hb => hne b (by simp [hb])) (by simpa using hlen)]

theorem cReadVal_go_stop :
    ∀ (v : List Char) (n : Nat) (c : Char) (r : List Char),
      (∀ a ∈ v, ¬ (a = '"' ∨ a = '\n')) → v.length ≤ n →
      (c = '"' ∨ c = '\n') →
      cReadVal.go n (v ++ c :: r) = v := by
  intro v
  induction v with
  | nil =>
    intro n c r _ _ hc
    cases n with
    | zero => rfl
    | succ n =>
      simp only [List.nil_append, cReadVal.go]
      rw [if_pos hc]
  | cons a t ih =>
    intro n c r hne hlen hc
    cases n with
    | zero => simp at hlen
    | succ n =>
      simp only [List.cons_append, cReadVal.go]
      rw [if_neg (hne a (by simp))]
      rw [show t.append (c :: r) = t ++ c :: r from rfl]
      rw [ih n c r (fun b hb => hne b (by simp [hb])) (by simpa using hlen)
        hc]

theorem goodValChar_spec (c : Char) (h : goodValChar c = true) :
    c ≠ '\n' ∧ c ≠ '"' ∧ c ≠ '=' ∧ c ≠ 'V' ∧ c ≠ '\x00' ∧ c ≠ '\r' := by
  refine ⟨?_, ?_, ?_, ?_, ?_, ?_⟩ <;>
    · intro he
      subst he
      exact absurd h (by decide)

theorem notMem_goodList (X : List Char) (c : Char)
    (hgc : goodValChar c = false)
    (hX : ∀ a ∈ X, goodValChar a = true) : c ∉ X := by
  intro hmem
  rw [hX c hmem] at hgc
  exact absurd hgc (by simp)

theorem notMem_qwrap (q : Bool) (X : List Char) (c : Char)
    (hgc : goodValChar c = false) (hq : c ≠ '"')
    (hX : ∀ a ∈ X, goodValChar a = true) : c ∉ qwrap q X := by
  intro hmem
  cases q with
  | false =>
    rw [show qwrap false X = X from rfl] at hmem
    exact notMem_goodList X c hgc hX hmem
  | true =>
    rw [show qwrap true X = '"' :: (X ++ ['"']) from rfl] at hmem
    simp only [List.mem_cons, List.mem_append, List.mem_singleton] at hmem
    rcases hmem with hc | hc | hc | hc
    · exact hq hc
    · exact notMem_goodList X c hgc hX hc
    · exact hq hc
    · simp at hc

theorem read_file_model_eq_self (l : List Char) (hlen : l.length ≤ 4095)
    (hlast : ∀ c, l.getLast? = some c → ¬ (c = '\n' ∨ c = '\r')) :
    read_file_model 4096 l = l := by
  unfold read_file_model
  rw [show (4096 - 1 : Nat) = 4095 from rfl, List.take_of_length_le hlen]
  cases hrev : l.reverse with
  | nil =>
    simp only [List.dropWhile_nil, List.reverse_nil]
    rw [← List.reverse_reverse l, hrev]
    rfl
  | cons c rest =>
    have hc : l.getLast? = some c := by
      rw [← List.head?_reverse, hrev]
      rfl
    rw [List.dropWhile_cons, if_neg (by
      intro hcond
      exact hlast c hc (by simpa using hcond))]
    rw [← hrev, List.reverse_reverse]

theorem qwrap_getLast? (q : Bool) (Y : List Char) (hY : Y ≠ []) :
    ∃ c, (qwrap q Y).getLast? = some c ∧ (c = '"' ∨ c ∈ Y) := by
  cases q with
  | false =>
    refine ⟨Y.getLast hY, ?_, Or.inr (List.getLast_mem hY)⟩
    rw [show qwrap false Y = Y from rfl]
    exact List.getLast?_eq_getLast Y hY
  | true =>
    refine ⟨'"', ?_, Or.inl rfl⟩
    rw [show qwrap true Y = ('"' :: Y) ++ ['"'] by simp [qwrap]]
    exact List.getLast?_concat _


theorem qwrap_ne_nil (q : Bool) (Y : List Char) (hY : Y ≠ []) :
    qwrap q Y ≠ [] := by
  cases q with
  | false => simpa [qwrap] using hY
  | true => simp [qwrap]

theorem qwrap_length_le (q : Bool) (X : List Char) :
    (qwrap q X).length ≤ X.length + 2 := by
  cases q <;> simp [qwrap]

theorem mem_qwrap_cases (q : Bool) (X : List Char) (c : Char)
    (h : c ∈ qwrap q X) : c = '"' ∨ c ∈ X := by
  cases q with
  | false => exact Or.inr (by simpa [qwrap] using h)
  | true =>
    rw [show qwrap true X = '"' :: (X ++ ['"']) from rfl] at h
    simp only [List.mem_cons, List.mem_append, List.mem_singleton] at h
    rcases h with hc | hc | hc | hc
    · exact Or.inl hc
    · exact Or.inr hc
    · exact Or.inl hc
    · simp at hc

theorem cReadVal_qwrap_stop (q : Bool) (X : List Char) (hX : goodVal X)
    (c : Char) (hc : c = '"' ∨ c = '\n') (r : List Char) :
    cReadVal 63 (qwrap q X ++ c :: r) = X := by
  obtain ⟨hXne, hXlen, hXg⟩ := hX
  have hstopfree : ∀ a ∈ X, ¬ (a = '"' ∨ a = '\n') := by
    intro a ha hor
    have hs := goodValChar_spec a (hXg a ha)
    rcases hor with h1 | h1
    · exact hs.2.1 h1
    · exact hs.1 h1
  unfold cReadVal
  cases q with
  | true =>
    rw [show qwrap true X ++ c :: r =
      '"' :: (X ++ ('"' :: (c :: r))) by simp [qwrap]]
    dsimp only
    rw [if_pos (show
      ('"' :: (X ++ ('"' :: (c :: r)))).head? = some '"' by simp)]
    exact cReadVal_go_stop X 63 '"' (c :: r) hstopfree hXlen (Or.inl rfl)
  | false =>
    rw [show qwrap false X = X from rfl]
    dsimp only
    cases hXc : X with
    | nil => exact absurd hXc hXne
    | cons x xs =>
      have hxq : x ≠ '"' :=
        (goodValChar_spec x (hXg x (by rw [hXc]; simp))).2.1
      rw [if_neg (by
        simp only [List.cons_append, List.head?_cons, Option.some_inj]
        exact hxq)]
      rw [← hXc]
      exact cReadVal_go_stop X 63 c r hstopfree hXlen hc

theorem cReadVal_qwrap_end (q : Bool) (X : List Char) (hX : goodVal X) :
    cReadVal 63 (qwrap q X) = X := by
  obtain ⟨hXne, hXlen, hXg⟩ := hX
  have hstopfree : ∀ a ∈ X, ¬ (a = '"' ∨ a = '\n') := by
    intro a ha hor
    have hs := goodValChar_spec a (hXg a ha)
    rcases hor with h1 | h1
    · exact hs.2.1 h1
    · exact hs.1 h1
  unfold cReadVal
  cases q with
  | true =>
    rw [show qwrap true X = '"' :: (X ++ ('"' :: [])) by simp [qwrap]]
    dsimp only
    rw [if_pos (show
      ('"' :: (X ++ ('"' :: []))).head? = some '"' by simp)]
    exact cReadVal_go_stop X 63 '"' [] hstopfree hXlen (Or.inl rfl)
  | false =>
    rw [show qwrap false X = X from rfl]
    dsimp only
    cases hXc : X with
    | nil => exact absurd hXc hXne
    | cons x xs =>
      have hxq : x ≠ '"' :=
        (goodValChar_spec x (hXg x (by rw [hXc]; simp))).2.1
      rw [if_neg (by
        simp only [List.head?_cons, Option.some_inj]
        exact hxq)]
      rw [← hXc]
      exact cReadVal_go_all X 63 hstopfree hXlen

theorem genName_with_version (q1 q2 : Bool) (X Y : List Char)
    (hX : goodVal X) (hY : goodVal Y) :
    generate_container_name (some ("ID=".toList ++ qwrap q1 X ++
      '\n' :: ("VERSION_ID=".toList ++ qwrap q2 Y))) = X ++ '-' :: Y := by
  have hXne := hX.1
  have hXlen := hX.2.1
  have hXg := hX.2.2
  have hYne := hY.1
  have hYlen := hY.2.1
  have hYg := hY.2.2
  have hXnl : '\n' ∉ qwrap q1 X :=
    notMem_qwrap q1 X '\n' (by decide) (by decide) hXg
  have hYnl : '\n' ∉ qwrap q2 Y :=
    notMem_qwrap q2 Y '\n' (by decide) (by decide) hYg
  have hXV : 'V' ∉ qwrap q1 X :=
    notMem_qwrap q1 X 'V' (by decide) (by decide) hXg
  have hlenc : ("ID=".toList ++ qwrap q1 X ++
      '\n' :: ("VERSION_ID=".toList ++ qwrap q2 Y)).length ≤ 4095 := by
    have h1 := qwrap_length_le q1 X
    have h2 := qwrap_length_le q2 Y
    simp only [List.length_append, List.length_cons]
    have e1 : ("ID=".toList).length = 3 := rfl
    have e2 : ("VERSION_ID=".toList).length = 11 := rfl
    omega
  have hlast : ∀ c, ("ID=".toList ++ qwrap q1 X ++
      '\n' :: ("VERSION_ID=".toList ++ qwrap q2 Y)).getLast? = some c →
      ¬ (c = '\n' ∨ c = '\r') := by
    intro c hc
    rw [show "ID=".toList ++ qwrap q1 X ++
        '\n' :: ("VERSION_ID=".toList ++ qwrap q2 Y) =
      ("ID=".toList ++ qwrap q1 X ++ ('\n' :: "VERSION_ID=".toList)) ++
        qwrap q2 Y by simp] at hc
    rw [List.getLast?_append_of_ne_nil _ (qwrap_ne_nil q2 Y hYne)] at hc
    rcases qwrap_getLast? q2 Y hYne with ⟨c2, hc2, hcase⟩
    rw [hc2] at hc
    have hceq : c2 = c := Option.some.inj hc
    subst hceq
    rcases hcase with h | h
    · subst h; decide
    · have hs := goodValChar_spec c2 (hYg c2 h)
      intro hor
      rcases hor with h1 | h1
      · exact hs.1 h1
      · exact hs.2.2.2.2.2 h1
  have hread : read_file_model 4096 ("ID=".toList ++ qwrap q1 X ++
      '\n' :: ("VERSION_ID=".toList ++ qwrap q2 Y)) =
      "ID=".toList ++ qwrap q1 X ++
        '\n' :: ("VERSION_ID=".toList ++ qwrap q2 Y) :=
    read_file_model_eq_self _ hlenc hlast
  have hcstr : cstr ("ID=".toList ++ qwrap q1 X ++
      '\n' :: ("VERSION_ID=".toList ++ qwrap q2 Y)) =
      "ID=".toList ++ qwrap q1 X ++
        '\n' :: ("VERSION_ID=".toList ++ qwrap q2 Y) := by
    apply cstr_eq_self
    intro c hcmem
    simp only [List.mem_append, List.mem_cons] at hcmem
    rcases hcmem with (h | h) | h | h | h
    · exact (show ∀ a ∈ "ID=".toList, a ≠ '\x00' by decide) c h
    · rcases mem_qwrap_cases q1 X c h with h | h
      · subst h; decide
      · exact (goodValChar_spec c (hXg c h)).2.2.2.2.1
    · subst h; decide
    · exact (show ∀ a ∈ "VERSION_ID=".toList, a ≠ '\x00' by decide) c h
    · rcases mem_qwrap_cases q2 Y c h with h | h
      · subst h; decide
      · exact (goodValChar_spec c (hYg c h)).2.2.2.2.1
  have hid_strstr : strstrIdx "\nID=".toList
      ("ID=".toList ++ qwrap q1 X ++
        '\n' :: ("VERSION_ID=".toList ++ qwrap q2 Y)) = none := by
    rw [show ("\nID=".toList : List Char) = '\n' :: "ID=".toList from rfl]
    rw [show "ID=".toList ++ qwrap q1 X ++
        '\n' :: ("VERSION_ID=".toList ++ qwrap q2 Y) =
      ("ID=".toList ++ qwrap q1 X) ++
        ('\n' :: ("VERSION_ID=".toList ++ qwrap q2 Y)) by simp]
    rw [strstrIdx_append_of_head_notMem '\n' _ _ _ (by
      intro hmem
      rcases List.mem_append.mp hmem with h | h
      · revert h; decide
      · exact hXnl h)]
    have hpf : (('\n' :: "ID=".toList).isPrefixOf
        ('\n' :: ("VERSION_ID=".toList ++ qwrap q2 Y))) = false := by
      rw [show ("VERSION_ID=".toList ++ qwrap q2 Y : List Char) =
        'V' :: ("ERSION_ID=".toList ++ qwrap q2 Y) from rfl]
      simp [List.isPrefixOf]
    rw [show strstrIdx ('\n' :: "ID=".toList)
        ('\n' :: ("VERSION_ID=".toList ++ qwrap q2 Y)) =
        (strstrIdx ('\n' :: "ID=".toList)
          ("VERSION_ID=".toList ++ qwrap q2 Y)).map (· + 1) by
      simp only [strstrIdx, hpf, Bool.false_eq_true, if_false]]
    rw [strstrIdx_none_of_head_notMem '\n' _ _ (by
      intro hmem
      rcases List.mem_append.mp hmem with h | h
      · revert h; decide
      · exact hYnl h)]
    rfl
  have hpre : ("ID=".toList.isPrefixOf
      ("ID=".toList ++ qwrap q1 X ++
        '\n' :: ("VERSION_ID=".toList ++ qwrap q2 Y))) = true := by
    rw [show ("ID=".toList ++ qwrap q1 X ++
        '\n' :: ("VERSION_ID=".toList ++ qwrap q2 Y) : List Char) =
      'I' :: 'D' :: '=' :: (qwrap q1 X ++
        '\n' :: ("VERSION_ID=".toList ++ qwrap q2 Y)) from rfl]
    simp [List.isPrefixOf]
  have hver : strstrIdx "VERSION_ID=".toList
      ("ID=".toList ++ qwrap q1 X ++
        '\n' :: ("VERSION_ID=".toList ++ qwrap q2 Y)) =
      some (("ID=".toList ++ qwrap q1 X ++ ['\n']).length) := by
    have hVnot : 'V' ∉ "ID=".toList ++ qwrap q1 X ++ ['\n'] := by
      intro hmem
      rcases List.mem_append.mp hmem with h | h
      · rcases List.mem_append.mp h with h | h
        · revert h; decide
        · exact hXV h
      · revert h; decide
    have hstep := strstrIdx_append_of_head_notMem 'V' "ERSION_ID=".toList
      ("ID=".toList ++ qwrap q1 X ++ ['\n'])
      ("VERSION_ID=".toList ++ qwrap q2 Y) hVnot
    have hzero : strstrIdx "VERSION_ID=".toList
        ("VERSION_ID=".toList ++ qwrap q2 Y) = some 0 := by
      have hpf : ("VERSION_ID=".toList.isPrefixOf
          ('V' :: ("ERSION_ID=".toList ++ qwrap q2 Y))) = true := by
        apply List.isPrefixOf_iff_prefix.mpr
        exact ⟨qwrap q2 Y, rfl⟩
      rw [show ("VERSION_ID=".toList ++ qwrap q2 Y : List Char) =
        'V' :: ("ERSION_ID=".toList ++ qwrap q2 Y) from rfl]
      simp only [strstrIdx, hpf, if_true]
    rw [show "ID=".toList ++ qwrap q1 X ++
        '\n' :: ("VERSION_ID=".toList ++ qwrap q2 Y) =
      ("ID=".toList ++ qwrap q1 X ++ ['\n']) ++
        ("VERSION_ID=".toList ++ qwrap q2 Y) by simp]
    rw [show strstrIdx "VERSION_ID=".toList
        (("ID=".toList ++ qwrap q1 X ++ ['\n']) ++
          ("VERSION_ID=".toList ++ qwrap q2 Y)) =
        (strstrIdx "VERSION_ID=".toList
          ("VERSION_ID=".toList ++ qwrap q2 Y)).map
          (· + ("ID=".toList ++ qwrap q1 X ++ ['\n']).length)
      from hstep]
    rw [hzero]
    simp
  unfold generate_container_name
  dsimp only
  rw [hread, hcstr, hid_strstr]
  dsimp only
  rw [if_pos hpre]
  dsimp only
  rw [hver]
  dsimp only
  rw [show ("ID=".toList ++ qwrap q1 X ++
      '\n' :: ("VERSION_ID=".toList ++ qwrap q2 Y)).drop 3 =
    qwrap q1 X ++ '\n' :: ("VERSION_ID=".toList ++ qwrap q2 Y) from rfl]
  have hdropV : ("ID=".toList ++ qwrap q1 X ++
      '\n' :: ("VERSION_ID=".toList ++ qwrap q2 Y)).drop
      (("ID=".toList ++ qwrap q1 X ++ ['\n']).length + 11) =
      qwrap q2 Y := by
    rw [show "ID=".toList ++ qwrap q1 X ++
        '\n' :: ("VERSION_ID=".toList ++ qwrap q2 Y) =
      (("ID=".toList ++ qwrap q1 X ++ ['\n']) ++ "VERSION_ID=".toList) ++
        qwrap q2 Y by simp]
    apply List.drop_left'
    rw [List.length_append]
    rfl
  rw [hdropV]
  rw [cReadVal_qwrap_stop q1 X hX '\n' (Or.inr rfl) _]
  rw [cReadVal_qwrap_end q2 Y hY]
  rw [if_pos hYne]

theorem genName_without_version (q1 : Bool) (X : List Char)
    (hX : goodVal X) :
    generate_container_name (some ("ID=".toList ++ qwrap q1 X)) = X := by
  have hXne := hX.1
  have hXlen := hX.2.1
  have hXg := hX.2.2
  have hXnl : '\n' ∉ qwrap q1 X :=
    notMem_qwrap q1 X '\n' (by decide) (by decide) hXg
  have hXV : 'V' ∉ qwrap q1 X :=
    notMem_qwrap q1 X 'V' (by decide) (by decide) hXg
  have hlenc : ("ID=".toList ++ qwrap q1 X).length ≤ 4095 := by
    have h1 := qwrap_length_le q1 X
    simp only [List.length_append]
    have e1 : ("ID=".toList).length = 3 := rfl
    omega
  have hlast : ∀ c, ("ID=".toList ++ qwrap q1 X).getLast? = some c →
      ¬ (c = '\n' ∨ c = '\r') := by
    intro c hc
    rw [List.getLast?_append_of_ne_nil _ (qwrap_ne_nil q1 X hXne)] at hc
    rcases qwrap_getLast? q1 X hXne with ⟨c2, hc2, hcase⟩
    rw [hc2] at hc
    have hceq : c2 = c := Option.some.inj hc
    subst hceq
    rcases hcase with h | h
    · subst h; decide
    · have hs := goodValChar_spec c2 (hXg c2 h)
      intro hor
      rcases hor with h1 | h1
      · exact hs.1 h1
      · exact hs.2.2.2.2.2 h1
  have hread : read_file_model 4096 ("ID=".toList ++ qwrap q1 X) =
      "ID=".toList ++ qwrap q1 X :=
    read_file_model_eq_self _ hlenc hlast
  have hcstr : cstr ("ID=".toList ++ qwrap q1 X) =
      "ID=".toList ++ qwrap q1 X := by
    apply cstr_eq_self
    intro c hcmem
    rcases List.mem_append.mp hcmem with h | h
    · exact (show ∀ a ∈ "ID=".toList, a ≠ '\x00' by decide) c h
    · rcases mem_qwrap_cases q1 X c h with h | h
      · subst h; decide
      · exact (goodValChar_spec c (hXg c h)).2.2.2.2.1
  have hid_strstr : strstrIdx "\nID=".toList
      ("ID=".toList ++ qwrap q1 X) = none :=
    strstrIdx_none_of_head_notMem '\n' "ID=".toList _ (by
      intro hmem
      rcases List.mem_append.mp hmem with h | h
      · revert h; decide
      · exact hXnl h)
  have hpre : ("ID=".toList.isPrefixOf
      ("ID=".toList ++ qwrap q1 X)) = true := by
    rw [show ("ID=".toList ++ qwrap q1 X : List Char) =
      'I' :: 'D' :: '=' :: qwrap q1 X from rfl]
    simp [List.isPrefixOf]
  have hver : strstrIdx "VERSION_ID=".toList
      ("ID=".toList ++ qwrap q1 X) = none :=
    strstrIdx_none_of_head_notMem 'V' "ERSION_ID=".toList _ (by
      intro hmem
      rcases List.mem_append.mp hmem with h | h
      · revert h; decide
      · exact hXV h)
  unfold generate_container_name
  dsimp only
  rw [hread, hcstr, hid_strstr]
  dsimp only
  rw [if_pos hpre]
  dsimp only
  rw [hver]
  dsimp only
  rw [show ("ID=".toList ++ qwrap q1 X).drop 3 = qwrap q1 X from rfl]
  rw [cReadVal_qwrap_end q1 X hX]
  simp

/-- C9: for every rootfs whose `/etc/os-release` defines `ID=X` (optionally
quoted) and `VERSION_ID=Y` (optionally quoted), `generate_container_name`
in src/pid.c produces the name `X-Y`, stripping the quote characters; and
when the `VERSION_ID=` line is absent it produces just `X`. Stated for
every pair of values over the os-release value alphabet (lowercase letters,
digits, `.`, `-`, `_`; at most 63 characters, as the 63-byte copy loops of
the code require) and every choice of quoting for each value. -/
theorem claim_C9_container_name_roundtrip (q1 q2 : Bool) (X Y : List Char)
    (hX : goodVal X) (hY : goodVal Y) :
    generate_container_name (some ("ID=".toList ++ qwrap q1 X ++
      '\n' :: ("VERSION_ID=".toList ++ qwrap q2 Y))) = X ++ '-' :: Y ∧
    generate_container_name (some ("ID=".toList ++ qwrap q1 X)) = X :=
  ⟨genName_with_version q1 q2 X Y hX hY, genName_without_version q1 X hX⟩

/-- Witness for C9 at `ID="alpine"`, `VERSION_ID=3.19`. -/
theorem claim_C9_container_name_roundtrip_witness :
    goodVal "alpine".toList ∧ goodVal "3.19".toList ∧
    (generate_container_name (some ("ID=".toList ++
        qwrap true "alpine".toList ++
        '\n' :: ("VERSION_ID=".toList ++ qwrap false "3.19".toList))) =
        "alpine".toList ++ '-' :: "3.19".toList ∧
      generate_container_name (some ("ID=".toList ++
        qwrap true "alpine".toList)) = "alpine".toList) :=
  ⟨by decide, by decide,
    claim_C9_container_name_roundtrip true false "alpine".toList
      "3.19".toList (by decide) (by decide)⟩

end Droidspaces
